import Mathlib

/-!
Formal model of the ODIS table planner (src/ODIS.py).

The planner state (`TablePlanner`) mirrors the Python class field by field.
Python dictionaries are modelled as insertion-ordered association lists:
`d[k] = v` replaces the first entry in place when the key is present and
appends a new entry otherwise, `del d[k]` removes the entry, and iteration
order is the list order — exactly the semantics of Python 3.7+ dicts.
`self.assignments` is a `defaultdict(list)`: reading a missing key inserts
an empty list, which `touchA` models.  Group ids are `Nat` (the monotone
counter), sizes and capacities are `Int` (Python ints).  The Streamlit UI
and the read-only accounting queries are outside the claims and are not
modelled; `st.session_state.messages`, which `optimize_seating` appends to,
is kept as a `messages` field.
-/

namespace ODIS

/-- Association list lookup: value of the first entry with the given key. -/
def lookupA {α β : Type} [DecidableEq α] : List (α × β) → α → Option β
  | [], _ => none
  | (k, v) :: rest, key => if k = key then some v else lookupA rest key

/-- Python `k in d`. -/
def containsA {α β : Type} [DecidableEq α] (l : List (α × β)) (k : α) : Bool :=
  (lookupA l k).isSome

/-- Python `d[k] = v`: replace the first entry in place, or append a new one. -/
def setA {α β : Type} [DecidableEq α] : List (α × β) → α → β → List (α × β)
  | [], key, v => [(key, v)]
  | (k, w) :: rest, key, v =>
    if k = key then (key, v) :: rest else (k, w) :: setA rest key v

/-- Python `del d[k]`: drop the first entry with the given key. -/
def eraseA {α β : Type} [DecidableEq α] : List (α × β) → α → List (α × β)
  | [], _ => []
  | (k, w) :: rest, key => if k = key then rest else (k, w) :: eraseA rest key

/-- Python `d[k] = f(d[k])` / in-place mutation of the stored record. -/
def adjustA {α β : Type} [DecidableEq α] (f : β → β) : List (α × β) → α → List (α × β)
  | [], _ => []
  | (k, w) :: rest, key =>
    if k = key then (k, f w) :: rest else (k, w) :: adjustA f rest key

/-- The keys of an association list are distinct (true of every Python dict). -/
def ndKeys {α β : Type} (l : List (α × β)) : Prop := (l.map Prod.fst).Nodup

instance {α β : Type} [DecidableEq α] (l : List (α × β)) :
    Decidable (ndKeys l) :=
  inferInstanceAs (Decidable (l.map Prod.fst).Nodup)

/-- A table record: `{'capacity': ..., 'occupied': ..., 'combined': ..., 'room': ...}`,
with `'component_tables'` present only on synthesized combined tables. -/
structure TableInfo where
  capacity : Int
  occupied : Bool
  combined : Bool
  room : String
  component_tables : Option (List String)
deriving DecidableEq

/-- A waiting group record: `{'size': ..., 'name': ...}`. -/
structure GroupInfo where
  size : Int
  name : String
deriving DecidableEq

/-- A seated group record: `{'size': ..., 'name': ..., 'table': ...}`. -/
structure SeatedInfo where
  size : Int
  name : String
  table : String
deriving DecidableEq

/-- The `TablePlanner` object state. -/
structure TablePlanner where
  tables : List (String × TableInfo)
  assignments : List (String × List Nat)
  groups : List (Nat × GroupInfo)
  seated_groups : List (Nat × SeatedInfo)
  next_group_id : Nat
  combined_tables : List (String × List String)
  messages : List String
deriving DecidableEq

/-- `TablePlanner.__init__` (the static `rooms` catalog is only read by the
unmodelled accounting query `get_room_for_table` and is omitted). -/
def initPlanner : TablePlanner :=
  { tables := [], assignments := [], groups := [], seated_groups := [],
    next_group_id := 1, combined_tables := [], messages := [] }

/-- Python `'+' in table_id`. -/
def hasPlus (str : String) : Bool := decide (Char.ofNat 43 ∈ str.data)

/-- Python `"+".join(ids)`. -/
def joinPlus : List String → String
  | [] => ""
  | [x] => x
  | x :: y :: rest => x ++ "+" ++ joinPlus (y :: rest)

/-- Reading `self.assignments[t]` (a `defaultdict(list)`) as a value. -/
def getAsg (l : List (String × List Nat)) (k : String) : List Nat :=
  (lookupA l k).getD []

/-- The entry-creating side effect of reading a missing `defaultdict` key. -/
def touchA (l : List (String × List Nat)) (k : String) : List (String × List Nat) :=
  if containsA l k then l else l ++ [(k, [])]

/-- Python `lst.remove(x)`: drop the first occurrence. -/
def removeFirst : List Nat → Nat → List Nat
  | [], _ => []
  | x :: xs, y => if x = y then xs else x :: removeFirst xs y

/-- `add_table`: `self.tables[table_id] = {...}` — silently overwrites an
existing record (the spec flags this as a bug, see claim C6). -/
def add_table (s : TablePlanner) (table_id : String) (capacity : Int)
    (room : String) : TablePlanner :=
  let info : TableInfo :=
    { capacity := capacity, occupied := false, combined := false,
      room := room, component_tables := none }
  { s with tables := setA s.tables table_id info }

/-- One iteration of the requeue loop in `remove_table`: move a seated group
back to waiting. -/
def requeueOne (s : TablePlanner) (gid : Nat) : TablePlanner :=
  match lookupA s.seated_groups gid with
  | some d =>
    { s with groups := setA s.groups gid { size := d.size, name := d.name },
             seated_groups := eraseA s.seated_groups gid }
  | none => s

/-- The whole requeue loop of `remove_table`. -/
def requeueAll (s : TablePlanner) (gids : List Nat) : TablePlanner :=
  gids.foldl requeueOne s

/-- `remove_table`. -/
def remove_table (s : TablePlanner) (table_id : String) : TablePlanner :=
  if containsA s.tables table_id then
    let s1 := { s with tables := eraseA s.tables table_id }
    if containsA s1.assignments table_id then
      let s2 := requeueAll s1 (getAsg s1.assignments table_id)
      { s2 with assignments := eraseA s2.assignments table_id }
    else s1
  else s

/-- `add_guests` (returns the fresh group id).  Python `if not group_name`
treats both `None` and the empty string as missing. -/
def add_guests (s : TablePlanner) (group_size : Int) (group_name : Option String) :
    TablePlanner × Nat :=
  let gid := s.next_group_id
  let name :=
    match group_name with
    | none => "Group " ++ toString gid
    | some n => if n = "" then "Group " ++ toString gid else n
  ({ s with groups := setA s.groups gid { size := group_size, name := name },
            next_group_id := gid + 1 }, gid)

/-- `sum(self.seated_groups[gid]['size'] for gid in self.assignments[table_id]
if gid in self.seated_groups)`. -/
def currentOccupancy (s : TablePlanner) (table_id : String) : Int :=
  ((getAsg s.assignments table_id).filterMap
    (fun gid => (lookupA s.seated_groups gid).map SeatedInfo.size)).sum

/-- The successful tail of `seat_guests` (also reused verbatim by
`optimize_seating`): append to the assignment list, set the occupied flag,
move the group from waiting to seated. -/
def seatCommit (s : TablePlanner) (group_id : Nat) (table_id : String)
    (g : GroupInfo) : TablePlanner :=
  let s1 := { s with
    assignments := setA s.assignments table_id
      (getAsg s.assignments table_id ++ [group_id]) }
  let s2 := { s1 with
    tables := adjustA (fun t => { t with occupied := true }) s1.tables table_id }
  { s2 with
    seated_groups := setA s2.seated_groups group_id
      { size := g.size, name := g.name, table := table_id },
    groups := eraseA s2.groups group_id }

/-- `seat_guests`.  The source's "combined table" branch assigns the same
capacity in both arms, so it is a single `let` here.  Reading
`self.assignments[table_id]` inside the occupancy sum creates the missing
entry (`touchA`), which the failure analysis must account for. -/
def seat_guests (s : TablePlanner) (group_id : Nat) (table_id : String) :
    TablePlanner × Bool × String :=
  match lookupA s.tables table_id with
  | none => (s, false, "Table does not exist")
  | some table_info =>
    match lookupA s.groups group_id with
    | none => (s, false, "Group does not exist")
    | some g =>
      let table_capacity := table_info.capacity
      if g.size > table_capacity then (s, false, "Group too large for table")
      else if table_info.occupied then
        let s0 := { s with assignments := touchA s.assignments table_id }
        if currentOccupancy s0 table_id + g.size > table_capacity then
          (s0, false, "Not enough space at table")
        else (seatCommit s0 group_id table_id g, true, "Group seated successfully")
      else (seatCommit s group_id table_id g, true, "Group seated successfully")

/-- The per-component restore in the teardown loop of `mark_group_left`
(`if comp_table in self.tables:` guards the mutation). -/
def clearComp (tbls : List (String × TableInfo)) (c : String) :
    List (String × TableInfo) :=
  if containsA tbls c then
    adjustA (fun t => { t with occupied := false, combined := false }) tbls c
  else tbls

/-- `mark_group_left`. -/
def mark_group_left (s : TablePlanner) (group_id : Nat) :
    TablePlanner × Bool × String :=
  match lookupA s.seated_groups group_id with
  | none => (s, false, "Group not found or not seated")
  | some d =>
    let table_id := d.table
    let sMid :=
      if containsA s.assignments table_id ∧ group_id ∈ getAsg s.assignments table_id then
        let s1 := { s with
          assignments := setA s.assignments table_id
            (removeFirst (getAsg s.assignments table_id) group_id) }
        if getAsg s1.assignments table_id = [] then
          let s2 := { s1 with
            tables := adjustA (fun t => { t with occupied := false })
              s1.tables table_id }
          if hasPlus table_id ∧ containsA s2.combined_tables table_id then
            let comps := (lookupA s2.combined_tables table_id).getD []
            let s3 := { s2 with tables := comps.foldl clearComp s2.tables }
            { s3 with tables := eraseA s3.tables table_id,
                      combined_tables := eraseA s3.combined_tables table_id,
                      assignments := eraseA s3.assignments table_id }
          else s2
        else s1
      else s
    ({ sMid with seated_groups := eraseA sMid.seated_groups group_id },
      true, "Group marked as left")

/-- The skip test in both phases of `find_best_table_for_group`:
`'+' in table_id or table_info.get('combined', False) or table_info['occupied']`. -/
def isFreeBase (table_id : String) (info : TableInfo) : Bool :=
  !hasPlus table_id && !info.combined && !info.occupied

/-- The free base tables, in registry order (the entries both phases scan). -/
def freeList (tbls : List (String × TableInfo)) : List (String × TableInfo) :=
  tbls.filter (fun p => isFreeBase p.1 p.2)

/-- Phase 1 of `find_best_table_for_group`: first free base table with
enough capacity, in registry iteration order. -/
def findSingle (tbls : List (String × TableInfo)) (group_size : Int) :
    Option String :=
  match tbls with
  | [] => none
  | (tid, info) :: rest =>
    if isFreeBase tid info then
      if group_size ≤ info.capacity then some tid
      else findSingle rest group_size
    else findSingle rest group_size

/-- `empty_tables_by_room[room].append((table_id, capacity))` with rooms keyed
in first-occurrence order. -/
def addToRoom (acc : List (String × List (String × Int))) (room : String)
    (entry : String × Int) : List (String × List (String × Int)) :=
  match lookupA acc room with
  | some lst => setA acc room (lst ++ [entry])
  | none => acc ++ [(room, [entry])]

/-- Building `empty_tables_by_room`. -/
def groupEmptyByRoom (tbls : List (String × TableInfo)) :
    List (String × List (String × Int)) :=
  tbls.foldl
    (fun acc p =>
      if isFreeBase p.1 p.2 then addToRoom acc p.2.room (p.1, p.2.capacity)
      else acc) []

/-- One insertion of the stable descending-by-capacity sort
(`empty_tables.sort(key=lambda x: x[1], reverse=True)` is stable, so a new
element goes after existing elements of equal capacity). -/
def insertDesc (x : String × Int) : List (String × Int) → List (String × Int)
  | [] => [x]
  | y :: ys => if x.2 ≤ y.2 then y :: insertDesc x ys else x :: y :: ys

/-- The stable descending sort of a room's candidate list. -/
def sortDesc (l : List (String × Int)) : List (String × Int) :=
  l.foldl (fun acc x => insertDesc x acc) []

/-- The inner `j` loop: accumulate tables from the current start, summing
capacity, until the running sum reaches the group size. -/
def accumFrom (group_size : Int) :
    List (String × Int) → Int → List String → Option (List String × Int)
  | [], _, _ => none
  | (tid, cap) :: rest, current_sum, acc =>
    let sum' := current_sum + cap
    let acc' := acc ++ [tid]
    if sum' ≥ group_size then some (acc', sum')
    else accumFrom group_size rest sum' acc'

/-- The outer `i` loop: try each start index in the sorted candidate list. -/
def tryStarts (group_size : Int) :
    List (String × Int) → Option (List String × Int)
  | [] => none
  | x :: rest =>
    match accumFrom group_size (x :: rest) 0 [] with
    | some r => some r
    | none => tryStarts group_size rest

/-- The room loop of the combination phase: first room (in iteration order)
with a satisfying prefix wins. -/
def searchRooms (group_size : Int) :
    List (String × List (String × Int)) → Option (String × List String × Int)
  | [] => none
  | (room, lst) :: rest =>
    match tryStarts group_size (sortDesc lst) with
    | some (comps, total) => some (room, comps, total)
    | none => searchRooms group_size rest

/-- Marking one chosen component `combined = True, occupied = True`. -/
def markCombined (tbls : List (String × TableInfo)) (c : String) :
    List (String × TableInfo) :=
  adjustA (fun t => { t with combined := true, occupied := true }) tbls c

/-- `find_best_table_for_group` (the `group_id` parameter is unused in the
source as well).  Returns the updated state together with the Python triple
`(table_id, is_combined, combined_tables)`. -/
def find_best_table_for_group (s : TablePlanner) (group_size : Int)
    (_group_id : Nat) :
    TablePlanner × Option String × Bool × Option (List String) :=
  match findSingle s.tables group_size with
  | some tid => (s, some tid, false, none)
  | none =>
    match searchRooms group_size (groupEmptyByRoom s.tables) with
    | none => (s, none, false, none)
    | some (room, comps, total) =>
      let s1 := { s with tables := comps.foldl markCombined s.tables }
      let combined_id := joinPlus comps
      let cinfo : TableInfo :=
        { capacity := total, occupied := true, combined := true,
          room := room, component_tables := some comps }
      let s2 := { s1 with tables := setA s1.tables combined_id cinfo }
      let s3 := { s2 with
        combined_tables := setA s2.combined_tables combined_id comps }
      let s4 := { s3 with assignments := setA s3.assignments combined_id [] }
      (s4, some combined_id, true, some comps)

/-- Lowercase hexadecimal digit, for CPython's `\xXX` escapes. -/
def hexDigit (n : Nat) : Char :=
  if n < 10 then Char.ofNat (48 + n) else Char.ofNat (87 + n)

/-- CPython `repr` escaping of one character under the chosen quote `q`:
backslash and the quote are backslash-escaped, tab, newline and carriage
return become `\t`, `\n`, `\r`, the remaining ASCII control characters
(and DEL) become `\xXX`.  Printable characters are rendered verbatim;
CPython's non-ASCII printability classes are not modelled, so ids are
assumed not to contain non-ASCII non-printable characters. -/
def pyEscChar (q : Char) (c : Char) : List Char :=
  if c = Char.ofNat 92 then [Char.ofNat 92, Char.ofNat 92]
  else if c = q then [Char.ofNat 92, q]
  else if c = Char.ofNat 9 then [Char.ofNat 92, Char.ofNat 116]
  else if c = Char.ofNat 10 then [Char.ofNat 92, Char.ofNat 110]
  else if c = Char.ofNat 13 then [Char.ofNat 92, Char.ofNat 114]
  else if c.toNat < 32 ∨ c.toNat = 127 then
    [Char.ofNat 92, Char.ofNat 120, hexDigit (c.toNat / 16),
      hexDigit (c.toNat % 16)]
  else [c]

def pyEscape (q : Char) : List Char → List Char
  | [] => []
  | c :: cs => pyEscChar q c ++ pyEscape q cs

/-- Python `repr` of a string, used in the log message.  CPython quotes
with a single quote unless the string contains a single quote and no
double quote, in which case it switches to double quotes; the body is
escaped per `pyEscChar`. -/
def pyQuoted (x : String) : String :=
  let q : Char :=
    if x.data.contains (Char.ofNat 39) && !(x.data.contains (Char.ofNat 34))
    then Char.ofNat 34 else Char.ofNat 39
  String.mk ([q] ++ pyEscape q x.data ++ [q])

/-- Python `repr` of a list of strings. -/
def pyStrList (l : List String) : String :=
  "[" ++ String.intercalate ", " (l.map pyQuoted) ++ "]"

/-- `f"Combined tables {combined_tables} in {room} for {group_name}"`. -/
def combinedMessage (comps : List String) (room : String) (gname : String) :
    String :=
  "Combined tables " ++ pyStrList comps ++ " in " ++ room ++ " for " ++ gname

/-- One insertion of the stable descending-by-size sort of the waiting
snapshot in `optimize_seating`. -/
def insertDescG (x : Nat × GroupInfo) :
    List (Nat × GroupInfo) → List (Nat × GroupInfo)
  | [] => [x]
  | y :: ys => if x.2.size ≤ y.2.size then y :: insertDescG x ys else x :: y :: ys

/-- `groups_to_seat.sort(key=lambda x: x[1]['size'], reverse=True)` (stable). -/
def sortGroupsDesc (l : List (Nat × GroupInfo)) : List (Nat × GroupInfo) :=
  l.foldl (fun acc x => insertDescG x acc) []

/-- One iteration of the loop in `optimize_seating`.  Python's
`if table_id:` is false for both `None` and the empty string.  The room in
the log message is read back from the table record, and the message is
appended only when tables were combined. -/
def optimizeStep (s : TablePlanner) (p : Nat × GroupInfo) : TablePlanner :=
  if containsA s.groups p.1 then
    match find_best_table_for_group s p.2.size p.1 with
    | (s', none, _, _) => s'
    | (s', some table_id, is_combined, comps) =>
      if table_id = "" then s'
      else
        let s2 := seatCommit s' p.1 table_id { size := p.2.size, name := p.2.name }
        if is_combined then
          { s2 with messages := s2.messages ++
              [combinedMessage (comps.getD [])
                (((lookupA s2.tables table_id).map TableInfo.room).getD "")
                p.2.name] }
        else s2
  else s

/-- `optimize_seating`: snapshot the waiting groups, sort by size descending,
seat each one via `find_best_table_for_group`. -/
def optimize_seating (s : TablePlanner) : TablePlanner :=
  (sortGroupsDesc s.groups).foldl optimizeStep s

/-- `optimizeStep`, instrumented to return alongside the new state the list
of log entries this step appends: empty, or one combined-tables message.
`optimizeStepRes_state` proves the state component coincides with
`optimizeStep`. -/
def optimizeStepRes (s : TablePlanner) (p : Nat × GroupInfo) :
    TablePlanner × List String :=
  if containsA s.groups p.1 then
    match find_best_table_for_group s p.2.size p.1 with
    | (s', none, _, _) => (s', [])
    | (s', some table_id, is_combined, comps) =>
      if table_id = "" then (s', [])
      else
        let s2 := seatCommit s' p.1 table_id { size := p.2.size, name := p.2.name }
        if is_combined then
          let m := combinedMessage (comps.getD [])
            (((lookupA s2.tables table_id).map TableInfo.room).getD "") p.2.name
          ({ s2 with messages := s2.messages ++ [m] }, [m])
        else (s2, [])
  else (s, [])

/-- The optimisation loop, instrumented to collect the per-group event
logs in order; the log of the run is the concatenation of the per-step
logs. -/
def optimizeRun : TablePlanner → List (Nat × GroupInfo) →
    TablePlanner × List String
  | s, [] => (s, [])
  | s, p :: rest =>
    let r1 := optimizeStepRes s p
    let r2 := optimizeRun r1.1 rest
    (r2.1, r1.2 ++ r2.2)

/-- Concrete planner used to exercise a combination event: one waiting
group of five, three free capacity-2 tables in one room. -/
def c7State : TablePlanner :=
  { tables := [("A", { capacity := 2, occupied := false, combined := false,
                       room := "R", component_tables := none }),
               ("B", { capacity := 2, occupied := false, combined := false,
                       room := "R", component_tables := none }),
               ("C", { capacity := 2, occupied := false, combined := false,
                       room := "R", component_tables := none })],
    assignments := [], groups := [(1, { size := 5, name := "G" })],
    seated_groups := [], next_group_id := 2, combined_tables := [],
    messages := [] }

/-- `rename_group`. -/
def rename_group (s : TablePlanner) (group_id : Nat) (new_name : String) :
    TablePlanner × Bool :=
  if containsA s.groups group_id then
    ({ s with groups :=
        adjustA (fun g => { g with name := new_name }) s.groups group_id }, true)
  else if containsA s.seated_groups group_id then
    ({ s with seated_groups :=
        adjustA (fun g => { g with name := new_name }) s.seated_groups group_id },
      true)
  else (s, false)

/-- The engine commands a caller can issue (the operations named by the
claims). -/
inductive Op where
  | addTable (table_id : String) (capacity : Int) (room : String)
  | removeTable (table_id : String)
  | addGuests (group_size : Int) (group_name : Option String)
  | seat (group_id : Nat) (table_id : String)
  | release (group_id : Nat)
  | findTable (group_size : Int) (group_id : Nat)
  | optimize
  | rename (group_id : Nat) (new_name : String)

/-- State transition of one command. -/
def applyOp (s : TablePlanner) : Op → TablePlanner
  | .addTable t c r => add_table s t c r
  | .removeTable t => remove_table s t
  | .addGuests n g => (add_guests s n g).1
  | .seat g t => (seat_guests s g t).1
  | .release g => (mark_group_left s g).1
  | .findTable n g => (find_best_table_for_group s n g).1
  | .optimize => optimize_seating s
  | .rename g n => (rename_group s g n).1

/-- Running a command sequence from a state. -/
def runOps (s : TablePlanner) (ops : List Op) : TablePlanner :=
  ops.foldl applyOp s

/-- `t` is a component of a currently registered (active) combined table. -/
def isActiveComponent (s : TablePlanner) (t : String) : Bool :=
  s.combined_tables.any (fun p => containsA s.tables p.1 && decide (t ∈ p.2))

/-- Well-behaved commands: `addTable` only with a fresh id free of the
combination separator (the spec's base-table contract), and neither `seat`
nor `removeTable` aimed directly at a component of an active combination
(the spec reserves components for the engine; the UI's manual-assignment
tab filters them out). -/
def goodOp (s : TablePlanner) : Op → Bool
  | .addTable t _ _ => !containsA s.tables t && !hasPlus t
  | .removeTable t => !isActiveComponent s t
  | .seat _ t => !isActiveComponent s t
  | _ => true

/-- States reachable from a fresh planner through well-behaved commands. -/
inductive ReachableG : TablePlanner → Prop where
  | init : ReachableG initPlanner
  | step (s : TablePlanner) (op : Op) : ReachableG s → goodOp s op = true →
      ReachableG (applyOp s op)

/-- The inductive state invariant behind the amended claim C2.  Beyond the
claimed equivalence for non-combined tables (`occIff`) it carries the
bookkeeping facts that make it preservable: distinct dict keys, assignment
entries only for registered tables, empty lists under unoccupied tables,
and for every active combination (a `combined_tables` entry whose id is
still registered) that its id carries the separator, its components are
separator-free, empty-listed, registered, flagged combined, and disjoint
from every other active combination. -/
structure Inv (s : TablePlanner) : Prop where
  ndT : ndKeys s.tables
  ndA : ndKeys s.assignments
  ndC : ndKeys s.combined_tables
  asgKeys : ∀ t, containsA s.assignments t = true → containsA s.tables t = true
  emptyFree : ∀ t info, lookupA s.tables t = some info →
    info.occupied = false → getAsg s.assignments t = []
  occIff : ∀ t info, lookupA s.tables t = some info → info.combined = false →
    (info.occupied = true ↔ getAsg s.assignments t ≠ [])
  ctPlus : ∀ cid, containsA s.combined_tables cid = true → hasPlus cid = true
  compNoPlus : ∀ cid comps, lookupA s.combined_tables cid = some comps →
    ∀ c ∈ comps, hasPlus c = false
  compEmpty : ∀ cid comps, lookupA s.combined_tables cid = some comps →
    containsA s.tables cid = true → ∀ c ∈ comps, getAsg s.assignments c = []
  compFlag : ∀ cid comps, lookupA s.combined_tables cid = some comps →
    containsA s.tables cid = true → ∀ c ∈ comps, ∀ ci,
      lookupA s.tables c = some ci → ci.combined = true
  compPresent : ∀ cid comps, lookupA s.combined_tables cid = some comps →
    containsA s.tables cid = true → ∀ c ∈ comps, containsA s.tables c = true
  compDisj : ∀ cid1 comps1 cid2 comps2,
    lookupA s.combined_tables cid1 = some comps1 →
    lookupA s.combined_tables cid2 = some comps2 →
    containsA s.tables cid1 = true → containsA s.tables cid2 = true →
    cid1 ≠ cid2 → ∀ c, c ∈ comps1 → c ∉ comps2

/-! ### Association list lemmas -/

section AList

variable {α β : Type} [DecidableEq α]

theorem lookupA_setA_self (l : List (α × β)) (k : α) (v : β) :
    lookupA (setA l k v) k = some v := by
  induction l with
  | nil => simp [setA, lookupA]
  | cons p rest ih =>
    obtain ⟨a, b⟩ := p
    by_cases h : a = k
    · simp [setA, lookupA, h]
    · simp [setA, lookupA, h, ih]

theorem lookupA_setA_ne (l : List (α × β)) (k x : α) (v : β) (h : x ≠ k) :
    lookupA (setA l k v) x = lookupA l x := by
  have hkx : ¬(k = x) := fun hh => h hh.symm
  induction l with
  | nil => simp [setA, lookupA, hkx]
  | cons p rest ih =>
    obtain ⟨a, b⟩ := p
    by_cases hk : a = k
    · subst hk
      simp [setA, lookupA, hkx]
    · simp only [setA, if_neg hk, lookupA]
      by_cases hx : a = x
      · simp [hx]
      · simp [hx, ih]

theorem lookupA_eraseA_ne (l : List (α × β)) (k x : α) (h : x ≠ k) :
    lookupA (eraseA l k) x = lookupA l x := by
  have hkx : ¬(k = x) := fun hh => h hh.symm
  induction l with
  | nil => simp [eraseA]
  | cons p rest ih =>
    obtain ⟨a, b⟩ := p
    by_cases hk : a = k
    · subst hk
      simp [eraseA, lookupA, hkx]
    · simp only [eraseA, if_neg hk, lookupA]
      by_cases hx : a = x
      · simp [hx]
      · simp [hx, ih]

theorem containsA_iff_mem_keys (l : List (α × β)) (k : α) :
    containsA l k = true ↔ k ∈ l.map Prod.fst := by
  induction l with
  | nil => simp [containsA, lookupA]
  | cons p rest ih =>
    obtain ⟨a, b⟩ := p
    by_cases h : a = k
    · subst h
      simp [containsA, lookupA]
    · have h2 : ¬(k = a) := fun hh => h hh.symm
      simp only [containsA, lookupA, if_neg h, List.map_cons, List.mem_cons]
      rw [← containsA]
      rw [ih]
      simp [h2]

theorem lookupA_eraseA_self (l : List (α × β)) (k : α) (h : ndKeys l) :
    lookupA (eraseA l k) k = none := by
  induction l with
  | nil => simp [eraseA, lookupA]
  | cons p rest ih =>
    obtain ⟨a, b⟩ := p
    simp only [ndKeys, List.map_cons, List.nodup_cons] at h
    by_cases hk : a = k
    · subst hk
      simp only [eraseA, if_pos rfl]
      rcases hl : lookupA rest a with _ | v
      · exact hl
      · exact absurd ((containsA_iff_mem_keys rest a).mp
          (by simp [containsA, hl])) h.1
    · simp only [eraseA, if_neg hk, lookupA, if_neg hk]
      exact ih h.2

theorem lookupA_adjustA_self (f : β → β) (l : List (α × β)) (k : α) :
    lookupA (adjustA f l k) k = (lookupA l k).map f := by
  induction l with
  | nil => simp [adjustA, lookupA]
  | cons p rest ih =>
    obtain ⟨a, b⟩ := p
    by_cases h : a = k
    · simp [adjustA, lookupA, h]
    · simp [adjustA, lookupA, h, ih]

theorem lookupA_adjustA_ne (f : β → β) (l : List (α × β)) (k x : α) (h : x ≠ k) :
    lookupA (adjustA f l k) x = lookupA l x := by
  have hkx : ¬(k = x) := fun hh => h hh.symm
  induction l with
  | nil => simp [adjustA]
  | cons p rest ih =>
    obtain ⟨a, b⟩ := p
    by_cases hk : a = k
    · subst hk
      simp [adjustA, lookupA, hkx]
    · simp only [adjustA, if_neg hk, lookupA]
      by_cases hx : a = x
      · simp [hx]
      · simp [hx, ih]

theorem keys_adjustA (f : β → β) (l : List (α × β)) (k : α) :
    (adjustA f l k).map Prod.fst = l.map Prod.fst := by
  induction l with
  | nil => simp [adjustA]
  | cons p rest ih =>
    obtain ⟨a, b⟩ := p
    by_cases h : a = k
    · simp [adjustA, h]
    · simp [adjustA, h, ih]

theorem containsA_adjustA (f : β → β) (l : List (α × β)) (k x : α) :
    containsA (adjustA f l k) x = containsA l x := by
  by_cases h : x = k
  · subst h
    simp [containsA, lookupA_adjustA_self]
  · simp [containsA, lookupA_adjustA_ne f l k x h]

theorem ndKeys_adjustA (f : β → β) (l : List (α × β)) (k : α) (h : ndKeys l) :
    ndKeys (adjustA f l k) := by
  unfold ndKeys
  rw [keys_adjustA]
  exact h

theorem adjustA_of_not_contains (f : β → β) (l : List (α × β)) (k : α)
    (h : containsA l k = false) : adjustA f l k = l := by
  induction l with
  | nil => simp [adjustA]
  | cons p rest ih =>
    obtain ⟨a, b⟩ := p
    simp only [containsA, lookupA] at h
    by_cases hk : a = k
    · simp [hk] at h
    · simp only [if_neg hk] at h
      simp only [adjustA, if_neg hk]
      rw [ih h]

theorem setA_of_not_contains (l : List (α × β)) (k : α) (v : β)
    (h : containsA l k = false) : setA l k v = l ++ [(k, v)] := by
  induction l with
  | nil => simp [setA]
  | cons p rest ih =>
    obtain ⟨a, b⟩ := p
    simp only [containsA, lookupA] at h
    by_cases hk : a = k
    · simp [hk] at h
    · simp only [if_neg hk] at h
      simp only [setA, if_neg hk]
      rw [ih h]
      simp

theorem keys_setA_of_contains (l : List (α × β)) (k : α) (v : β)
    (h : containsA l k = true) : (setA l k v).map Prod.fst = l.map Prod.fst := by
  induction l with
  | nil => simp [containsA, lookupA] at h
  | cons p rest ih =>
    obtain ⟨a, b⟩ := p
    simp only [containsA, lookupA] at h
    by_cases hk : a = k
    · subst hk
      simp [setA]
    · simp only [if_neg hk] at h
      simp [setA, if_neg hk, ih h]

theorem ndKeys_setA (l : List (α × β)) (k : α) (v : β) (h : ndKeys l) :
    ndKeys (setA l k v) := by
  rcases hc : containsA l k with _ | _
  · unfold ndKeys
    rw [setA_of_not_contains l k v hc]
    simp only [List.map_append, List.map_cons, List.map_nil]
    rw [List.nodup_append]
    refine ⟨h, List.nodup_singleton _, ?_⟩
    intro a ha hb
    simp only [List.mem_singleton] at hb
    subst hb
    exact absurd ((containsA_iff_mem_keys l a).mpr ha) (by simp [hc])
  · unfold ndKeys
    rw [keys_setA_of_contains l k v hc]
    exact h

theorem mem_eraseA (l : List (α × β)) (k : α) (p : α × β)
    (h : p ∈ eraseA l k) : p ∈ l := by
  induction l with
  | nil => simp [eraseA] at h
  | cons q rest ih =>
    obtain ⟨a, b⟩ := q
    by_cases hk : a = k
    · simp only [eraseA, if_pos hk] at h
      exact List.mem_cons_of_mem _ h
    · simp only [eraseA, if_neg hk, List.mem_cons] at h
      rcases h with h | h
      · exact h ▸ List.mem_cons_self _ _
      · exact List.mem_cons_of_mem _ (ih h)

theorem keys_eraseA_subset (l : List (α × β)) (k : α) :
    (eraseA l k).map Prod.fst ⊆ l.map Prod.fst := by
  intro a ha
  simp only [List.mem_map] at ha ⊢
  obtain ⟨q, hq, rfl⟩ := ha
  exact ⟨q, mem_eraseA l k q hq, rfl⟩

theorem ndKeys_eraseA (l : List (α × β)) (k : α) (h : ndKeys l) :
    ndKeys (eraseA l k) := by
  induction l with
  | nil => exact h
  | cons p rest ih =>
    obtain ⟨a, b⟩ := p
    simp only [ndKeys, List.map_cons, List.nodup_cons] at h
    by_cases hk : a = k
    · simp only [eraseA, if_pos hk]
      exact h.2
    · simp only [eraseA, if_neg hk, ndKeys, List.map_cons, List.nodup_cons]
      exact ⟨fun hm => h.1 (keys_eraseA_subset rest k hm), ih h.2⟩

theorem containsA_eraseA_imp (l : List (α × β)) (k x : α)
    (h : containsA (eraseA l k) x = true) : containsA l x = true := by
  rw [containsA_iff_mem_keys] at h ⊢
  exact keys_eraseA_subset l k h

theorem containsA_eraseA_self (l : List (α × β)) (k : α) (h : ndKeys l) :
    containsA (eraseA l k) k = false := by
  simp [containsA, lookupA_eraseA_self l k h]

theorem lookupA_mem (l : List (α × β)) (k : α) (v : β)
    (h : lookupA l k = some v) : (k, v) ∈ l := by
  induction l with
  | nil => simp [lookupA] at h
  | cons p rest ih =>
    obtain ⟨a, b⟩ := p
    by_cases hk : a = k
    · simp only [lookupA, if_pos hk] at h
      cases h
      subst hk
      exact List.mem_cons_self _ _
    · simp only [lookupA, if_neg hk] at h
      exact List.mem_cons_of_mem _ (ih h)

theorem mem_lookupA (l : List (α × β)) (k : α) (v : β) (hnd : ndKeys l)
    (h : (k, v) ∈ l) : lookupA l k = some v := by
  induction l with
  | nil => simp at h
  | cons p rest ih =>
    obtain ⟨a, b⟩ := p
    simp only [ndKeys, List.map_cons, List.nodup_cons] at hnd
    rcases List.mem_cons.mp h with h | h
    · cases h
      simp [lookupA]
    · by_cases hk : a = k
      · subst hk
        exact absurd (List.mem_map.mpr ⟨(a, v), h, rfl⟩) hnd.1
      · simp only [lookupA, if_neg hk]
        exact ih hnd.2 h

end AList

/-! ### Assignment map and helper lemmas -/

theorem getAsg_setA_self (l : List (String × List Nat)) (k : String)
    (v : List Nat) : getAsg (setA l k v) k = v := by
  simp [getAsg, lookupA_setA_self]

theorem getAsg_setA_ne (l : List (String × List Nat)) (k x : String)
    (v : List Nat) (h : x ≠ k) : getAsg (setA l k v) x = getAsg l x := by
  simp [getAsg, lookupA_setA_ne l k x v h]

theorem getAsg_eraseA_ne (l : List (String × List Nat)) (k x : String)
    (h : x ≠ k) : getAsg (eraseA l k) x = getAsg l x := by
  simp [getAsg, lookupA_eraseA_ne l k x h]

theorem lookupA_append_single_ne {α β : Type} [DecidableEq α]
    (l : List (α × β)) (k x : α) (v : β) (h : x ≠ k) :
    lookupA (l ++ [(k, v)]) x = lookupA l x := by
  have hkx : ¬(k = x) := fun hh => h hh.symm
  induction l with
  | nil => simp [lookupA, hkx]
  | cons p rest ih =>
    obtain ⟨a, b⟩ := p
    by_cases hx : a = x
    · simp [lookupA, hx]
    · simp only [List.cons_append, lookupA, if_neg hx]
      exact ih

theorem lookupA_append_single_self {α β : Type} [DecidableEq α]
    (l : List (α × β)) (k : α) (v : β) (hc : containsA l k = false) :
    lookupA (l ++ [(k, v)]) k = some v := by
  induction l with
  | nil => simp [lookupA]
  | cons p rest ih =>
    obtain ⟨a, b⟩ := p
    simp only [containsA, lookupA] at hc
    by_cases hk : a = k
    · simp [hk] at hc
    · simp only [if_neg hk] at hc
      simp only [List.cons_append, lookupA, if_neg hk]
      exact ih hc

theorem lookupA_none_of_not_contains {α β : Type} [DecidableEq α]
    (l : List (α × β)) (k : α) (hc : containsA l k = false) :
    lookupA l k = none := by
  simp only [containsA] at hc
  rcases hl : lookupA l k with _ | v
  · rfl
  · simp [hl] at hc

theorem lookupA_touchA_ne (l : List (String × List Nat)) (k x : String)
    (h : x ≠ k) : lookupA (touchA l k) x = lookupA l x := by
  unfold touchA
  rcases hc : containsA l k with _ | _
  · simp only [hc, Bool.false_eq_true, if_false]
    exact lookupA_append_single_ne l k x [] h
  · simp

theorem lookupA_touchA_self (l : List (String × List Nat)) (k : String) :
    lookupA (touchA l k) k = some (getAsg l k) := by
  unfold touchA
  rcases hc : containsA l k with _ | _
  · simp only [hc, Bool.false_eq_true, if_false]
    rw [lookupA_append_single_self l k [] hc, getAsg,
      lookupA_none_of_not_contains l k hc]
    rfl
  · simp only [if_pos]
    simp only [containsA] at hc
    rcases hl : lookupA l k with _ | v
    · simp [hl] at hc
    · simp [getAsg, hl]

theorem getAsg_touchA (l : List (String × List Nat)) (k x : String) :
    getAsg (touchA l k) x = getAsg l x := by
  by_cases h : x = k
  · subst h
    simp [getAsg, lookupA_touchA_self]
  · simp [getAsg, lookupA_touchA_ne l k x h]

theorem containsA_touchA_self (l : List (String × List Nat)) (k : String) :
    containsA (touchA l k) k = true := by
  simp [containsA, lookupA_touchA_self]

theorem setA_append_missing {α β : Type} [DecidableEq α]
    (l : List (α × β)) (k : α) (v w : β) (hc : containsA l k = false) :
    setA (l ++ [(k, w)]) k v = l ++ [(k, v)] := by
  induction l with
  | nil => simp [setA]
  | cons p rest ih =>
    obtain ⟨a, b⟩ := p
    simp only [containsA, lookupA] at hc
    by_cases hk : a = k
    · simp [hk] at hc
    · simp only [if_neg hk] at hc
      simp only [List.cons_append, setA, if_neg hk, List.append_eq]
      rw [ih hc]

theorem setA_touchA (l : List (String × List Nat)) (k : String) (v : List Nat) :
    setA (touchA l k) k v = setA l k v := by
  unfold touchA
  rcases hc : containsA l k with _ | _
  · simp only [hc, Bool.false_eq_true, if_false]
    rw [setA_append_missing l k v [] hc, setA_of_not_contains l k v hc]
  · simp

theorem touchA_of_contains (l : List (String × List Nat)) (k : String)
    (h : containsA l k = true) : touchA l k = l := by
  simp [touchA, h]

theorem getAsg_ne_nil_contains (l : List (String × List Nat)) (k : String)
    (h : getAsg l k ≠ []) : containsA l k = true := by
  rcases hl : lookupA l k with _ | v
  · simp [getAsg, hl] at h
  · simp [containsA, hl]

theorem removeFirst_append_self (l : List Nat) (g : Nat) (h : g ∉ l) :
    removeFirst (l ++ [g]) g = l := by
  induction l with
  | nil => simp [removeFirst]
  | cons x xs ih =>
    simp only [List.mem_cons, not_or] at h
    have hxg : ¬(x = g) := fun hh => h.1 hh.symm
    have hstep : (x :: xs) ++ [g] = x :: (xs ++ [g]) := rfl
    rw [hstep, removeFirst, if_neg hxg, ih h.2]

theorem mem_removeFirst (l : List Nat) (g x : Nat) (h : x ∈ removeFirst l g) :
    x ∈ l := by
  induction l with
  | nil => simp [removeFirst] at h
  | cons y ys ih =>
    by_cases hy : y = g
    · simp only [removeFirst, if_pos hy] at h
      exact List.mem_cons_of_mem _ h
    · simp only [removeFirst, if_neg hy, List.mem_cons] at h
      rcases h with h | h
      · exact h ▸ List.mem_cons_self _ _
      · exact List.mem_cons_of_mem _ (ih h)

/-- Lookup after folding an idempotent per-entry adjustment over a list of
keys: adjusted exactly on the listed keys. -/
theorem lookupA_foldl_adjustA (f : TableInfo → TableInfo)
    (hf : ∀ b, f (f b) = f b) (cs : List String)
    (l : List (String × TableInfo)) (x : String) :
    lookupA (cs.foldl (fun acc c => adjustA f acc c) l) x =
      if x ∈ cs then (lookupA l x).map f else lookupA l x := by
  induction cs generalizing l with
  | nil => simp
  | cons c rest ih =>
    simp only [List.foldl_cons]
    rw [ih]
    by_cases hx : x ∈ rest
    · rw [if_pos hx, if_pos (List.mem_cons_of_mem c hx)]
      by_cases hc : x = c
      · subst hc
        rw [lookupA_adjustA_self]
        rcases h2 : lookupA l x with _ | v
        · rfl
        · simp [hf]
      · rw [lookupA_adjustA_ne f l c x hc]
    · rw [if_neg hx]
      by_cases hc : x = c
      · subst hc
        rw [if_pos (List.mem_cons_self x rest), lookupA_adjustA_self]
      · rw [if_neg (by simp [hc, hx]), lookupA_adjustA_ne f l c x hc]

theorem keys_foldl_adjustA (f : TableInfo → TableInfo) (cs : List String)
    (l : List (String × TableInfo)) :
    (cs.foldl (fun acc c => adjustA f acc c) l).map Prod.fst = l.map Prod.fst := by
  induction cs generalizing l with
  | nil => simp
  | cons c rest ih =>
    simp only [List.foldl_cons]
    rw [ih, keys_adjustA]

theorem containsA_foldl_adjustA (f : TableInfo → TableInfo) (cs : List String)
    (l : List (String × TableInfo)) (x : String) :
    containsA (cs.foldl (fun acc c => adjustA f acc c) l) x = containsA l x := by
  induction cs generalizing l with
  | nil => simp
  | cons c rest ih =>
    simp only [List.foldl_cons]
    rw [ih, containsA_adjustA]

/-- The guarded per-component restore equals a plain adjustment. -/
theorem clearComp_eq_adjustA (tbls : List (String × TableInfo)) (c : String) :
    clearComp tbls c =
      adjustA (fun t => { t with occupied := false, combined := false }) tbls c := by
  unfold clearComp
  rcases hc : containsA tbls c with _ | _
  · rw [adjustA_of_not_contains _ tbls c hc]
    simp [hc]
  · simp [hc]

theorem foldl_clearComp_eq (cs : List String) (tbls : List (String × TableInfo)) :
    cs.foldl clearComp tbls =
      cs.foldl (fun acc c => adjustA
        (fun t => { t with occupied := false, combined := false }) acc c) tbls := by
  induction cs generalizing tbls with
  | nil => rfl
  | cons c rest ih =>
    simp only [List.foldl_cons]
    rw [clearComp_eq_adjustA, ih]

theorem foldl_markCombined_eq (cs : List String)
    (tbls : List (String × TableInfo)) :
    cs.foldl markCombined tbls =
      cs.foldl (fun acc c => adjustA
        (fun t => { t with combined := true, occupied := true }) acc c) tbls := by
  induction cs generalizing tbls with
  | nil => rfl
  | cons c rest ih =>
    simp only [List.foldl_cons]
    rw [markCombined, ih]

/-! ### seat_guests case analysis -/

theorem currentOccupancy_touch (s : TablePlanner) (tid : String) :
    currentOccupancy { s with assignments := touchA s.assignments tid } tid =
      currentOccupancy s tid := by
  simp [currentOccupancy, getAsg_touchA]

theorem seat_guests_table_none (s : TablePlanner) (gid : Nat) (tid : String)
    (ht : lookupA s.tables tid = none) :
    seat_guests s gid tid = (s, false, "Table does not exist") := by
  simp [seat_guests, ht]

theorem seat_guests_group_none (s : TablePlanner) (gid : Nat) (tid : String)
    (info : TableInfo) (ht : lookupA s.tables tid = some info)
    (hg : lookupA s.groups gid = none) :
    seat_guests s gid tid = (s, false, "Group does not exist") := by
  simp [seat_guests, ht, hg]

theorem seat_guests_too_large (s : TablePlanner) (gid : Nat) (tid : String)
    (info : TableInfo) (g : GroupInfo) (ht : lookupA s.tables tid = some info)
    (hg : lookupA s.groups gid = some g) (hbig : g.size > info.capacity) :
    seat_guests s gid tid = (s, false, "Group too large for table") := by
  simp [seat_guests, ht, hg, hbig]

theorem seat_guests_no_space (s : TablePlanner) (gid : Nat) (tid : String)
    (info : TableInfo) (g : GroupInfo) (ht : lookupA s.tables tid = some info)
    (hg : lookupA s.groups gid = some g) (hsz : ¬g.size > info.capacity)
    (hocc : info.occupied = true)
    (hover : currentOccupancy s tid + g.size > info.capacity) :
    seat_guests s gid tid =
      ({ s with assignments := touchA s.assignments tid }, false,
        "Not enough space at table") := by
  simp [seat_guests, ht, hg, hsz, hocc, currentOccupancy_touch, hover]

theorem seatCommit_touch (s : TablePlanner) (gid : Nat) (tid : String)
    (g : GroupInfo) :
    seatCommit { s with assignments := touchA s.assignments tid } gid tid g =
      seatCommit s gid tid g := by
  simp [seatCommit, setA_touchA, getAsg_touchA]

theorem seat_guests_success_occupied (s : TablePlanner) (gid : Nat)
    (tid : String) (info : TableInfo) (g : GroupInfo)
    (ht : lookupA s.tables tid = some info)
    (hg : lookupA s.groups gid = some g) (hsz : ¬g.size > info.capacity)
    (hocc : info.occupied = true)
    (hover : ¬currentOccupancy s tid + g.size > info.capacity) :
    seat_guests s gid tid =
      (seatCommit s gid tid g, true, "Group seated successfully") := by
  have htouch : currentOccupancy
      { s with assignments := touchA s.assignments tid } tid =
      currentOccupancy s tid := currentOccupancy_touch s tid
  simp [seat_guests, ht, hg, hsz, hocc, htouch, hover, seatCommit_touch]

theorem seat_guests_success_free (s : TablePlanner) (gid : Nat)
    (tid : String) (info : TableInfo) (g : GroupInfo)
    (ht : lookupA s.tables tid = some info)
    (hg : lookupA s.groups gid = some g) (hsz : ¬g.size > info.capacity)
    (hocc : info.occupied = false) :
    seat_guests s gid tid =
      (seatCommit s gid tid g, true, "Group seated successfully") := by
  simp [seat_guests, ht, hg, hsz, hocc]

theorem occupancy_zero_of_nil (s : TablePlanner) (tid : String)
    (h : getAsg s.assignments tid = []) : currentOccupancy s tid = 0 := by
  simp [currentOccupancy, h]

/-- On the `InsufficientSpace` path the `defaultdict` touch is a no-op:
the occupancy is positive, so the assignment entry already exists. -/
theorem touchA_id_of_no_space (s : TablePlanner) (tid : String)
    (cap sz : Int) (hsz : ¬sz > cap) (hover : currentOccupancy s tid + sz > cap) :
    touchA s.assignments tid = s.assignments := by
  have hpos : currentOccupancy s tid > 0 := by omega
  have hne : getAsg s.assignments tid ≠ [] := by
    intro hnil
    rw [occupancy_zero_of_nil s tid hnil] at hpos
    omega
  exact touchA_of_contains _ _ (getAsg_ne_nil_contains _ _ hne)

/-! ### seatCommit effect lemmas -/

theorem seatCommit_asg_self (s : TablePlanner) (gid : Nat) (tid : String)
    (g : GroupInfo) :
    getAsg (seatCommit s gid tid g).assignments tid =
      getAsg s.assignments tid ++ [gid] := by
  simp [seatCommit, getAsg_setA_self]

theorem seatCommit_asg_ne (s : TablePlanner) (gid : Nat) (tid x : String)
    (g : GroupInfo) (h : x ≠ tid) :
    getAsg (seatCommit s gid tid g).assignments x = getAsg s.assignments x := by
  simp [seatCommit, getAsg_setA_ne _ _ _ _ h]

theorem seatCommit_tables_self (s : TablePlanner) (gid : Nat) (tid : String)
    (g : GroupInfo) :
    lookupA (seatCommit s gid tid g).tables tid =
      (lookupA s.tables tid).map (fun t => { t with occupied := true }) := by
  simp [seatCommit, lookupA_adjustA_self]

theorem seatCommit_tables_ne (s : TablePlanner) (gid : Nat) (tid x : String)
    (g : GroupInfo) (h : x ≠ tid) :
    lookupA (seatCommit s gid tid g).tables x = lookupA s.tables x := by
  simp [seatCommit, lookupA_adjustA_ne _ _ _ _ h]

theorem seatCommit_seated_self (s : TablePlanner) (gid : Nat) (tid : String)
    (g : GroupInfo) :
    lookupA (seatCommit s gid tid g).seated_groups gid =
      some { size := g.size, name := g.name, table := tid } := by
  simp [seatCommit, lookupA_setA_self]

theorem seatCommit_groups_self (s : TablePlanner) (gid : Nat) (tid : String)
    (g : GroupInfo) (hnd : ndKeys s.groups) :
    lookupA (seatCommit s gid tid g).groups gid = none := by
  simp [seatCommit]
  exact lookupA_eraseA_self _ _ hnd

/-! ### Claim C3 -/

/-- Claim C3: full characterization of `seat_guests`.  The failure kinds
fire exactly under the claimed conditions (checked in the source's order:
table lookup, group lookup, `GroupTooLarge` when `size > capacity`, then
`InsufficientSpace` when the table is occupied and
`capacity - currentOccupancy < size`); on success the group id is appended
to the table's assignment list, the occupied flag is set, and the group
record moves from waiting to seated carrying the table id. -/
theorem C3_seat_characterization (s : TablePlanner) (gid : Nat) (tid : String)
    (hnd : ndKeys s.groups) :
    ((seat_guests s gid tid).2.2 = "Table does not exist" ↔
      lookupA s.tables tid = none) ∧
    (∀ info, lookupA s.tables tid = some info →
      ((seat_guests s gid tid).2.2 = "Group does not exist" ↔
        lookupA s.groups gid = none)) ∧
    (∀ info g, lookupA s.tables tid = some info →
      lookupA s.groups gid = some g →
      ((seat_guests s gid tid).2.2 = "Group too large for table" ↔
        g.size > info.capacity)) ∧
    (∀ info g, lookupA s.tables tid = some info →
      lookupA s.groups gid = some g → g.size ≤ info.capacity →
      ((seat_guests s gid tid).2.2 = "Not enough space at table" ↔
        (info.occupied = true ∧
          info.capacity - currentOccupancy s tid < g.size))) ∧
    (∀ info g, lookupA s.tables tid = some info →
      lookupA s.groups gid = some g → g.size ≤ info.capacity →
      ¬(info.occupied = true ∧
          info.capacity - currentOccupancy s tid < g.size) →
      ((seat_guests s gid tid).2.1 = true ∧
        getAsg (seat_guests s gid tid).1.assignments tid =
          getAsg s.assignments tid ++ [gid] ∧
        lookupA (seat_guests s gid tid).1.tables tid =
          some { info with occupied := true } ∧
        lookupA (seat_guests s gid tid).1.seated_groups gid =
          some { size := g.size, name := g.name, table := tid } ∧
        lookupA (seat_guests s gid tid).1.groups gid = none)) := by
  rcases ht : lookupA s.tables tid with _ | info
  · rw [seat_guests_table_none s gid tid ht]
    refine ⟨by simp, ?_, ?_, ?_, ?_⟩
    · intro i2 h2
      simp at h2
    · intro i2 g2 h2 hg2
      simp at h2
    · intro i2 g2 h2 hg2
      simp at h2
    · intro i2 g2 h2 hg2
      simp at h2
  · rcases hg : lookupA s.groups gid with _ | g
    · rw [seat_guests_group_none s gid tid info ht hg]
      refine ⟨⟨fun h => by simp at h, fun h => by simp at h⟩,
        ?_, ?_, ?_, ?_⟩
      · intro i2 h2
        simp
      · intro i2 g2 h2 hg2
        simp at hg2
      · intro i2 g2 h2 hg2
        simp at hg2
      · intro i2 g2 h2 hg2
        simp at hg2
    · by_cases hbig : g.size > info.capacity
      · rw [seat_guests_too_large s gid tid info g ht hg hbig]
        refine ⟨⟨fun h => by simp at h, fun h => by simp at h⟩,
          ?_, ?_, ?_, ?_⟩
        · intro i2 h2
          exact ⟨fun h => by simp at h, fun h => by simp at h⟩
        · intro i2 g2 h2 hg2
          injection h2 with h2
          injection hg2 with hg2
          subst h2
          subst hg2
          exact ⟨fun _ => hbig, fun _ => rfl⟩
        · intro i2 g2 h2 hg2 hfit
          injection h2 with h2
          injection hg2 with hg2
          subst h2
          subst hg2
          omega
        · intro i2 g2 h2 hg2 hfit
          injection h2 with h2
          injection hg2 with hg2
          subst h2
          subst hg2
          omega
      · by_cases hocc : info.occupied = true
        · by_cases hover : currentOccupancy s tid + g.size > info.capacity
          · rw [seat_guests_no_space s gid tid info g ht hg hbig hocc hover]
            refine ⟨⟨fun h => by simp at h, fun h => by simp at h⟩,
              ?_, ?_, ?_, ?_⟩
            · intro i2 h2
              exact ⟨fun h => by simp at h, fun h => by simp at h⟩
            · intro i2 g2 h2 hg2
              injection h2 with h2
              injection hg2 with hg2
              subst h2
              subst hg2
              exact ⟨fun h => by simp at h, fun h => absurd h hbig⟩
            · intro i2 g2 h2 hg2 hfit
              injection h2 with h2
              injection hg2 with hg2
              subst h2
              subst hg2
              exact ⟨fun _ => ⟨hocc, by omega⟩, fun _ => rfl⟩
            · intro i2 g2 h2 hg2 hfit hns
              injection h2 with h2
              injection hg2 with hg2
              subst h2
              subst hg2
              exact absurd ⟨hocc, by omega⟩ hns
          · rw [seat_guests_success_occupied s gid tid info g ht hg hbig hocc
              hover]
            refine ⟨⟨fun h => by simp at h, fun h => by simp at h⟩,
              ?_, ?_, ?_, ?_⟩
            · intro i2 h2
              exact ⟨fun h => by simp at h, fun h => by simp at h⟩
            · intro i2 g2 h2 hg2
              injection h2 with h2
              injection hg2 with hg2
              subst h2
              subst hg2
              exact ⟨fun h => by simp at h, fun h => absurd h hbig⟩
            · intro i2 g2 h2 hg2 hfit
              injection h2 with h2
              injection hg2 with hg2
              subst h2
              subst hg2
              exact ⟨fun h => by simp at h, fun h => absurd h.2 (by omega)⟩
            · intro i2 g2 h2 hg2 hfit hns
              injection h2 with h2
              injection hg2 with hg2
              subst h2
              subst hg2
              refine ⟨rfl, seatCommit_asg_self s gid tid g, ?_,
                seatCommit_seated_self s gid tid g,
                seatCommit_groups_self s gid tid g hnd⟩
              rw [seatCommit_tables_self, ht]
              rfl
        · have hocc2 : info.occupied = false := by
            revert hocc
            cases info.occupied <;> simp
          rw [seat_guests_success_free s gid tid info g ht hg hbig hocc2]
          refine ⟨⟨fun h => by simp at h, fun h => by simp at h⟩,
            ?_, ?_, ?_, ?_⟩
          · intro i2 h2
            exact ⟨fun h => by simp at h, fun h => by simp at h⟩
          · intro i2 g2 h2 hg2
            injection h2 with h2
            injection hg2 with hg2
            subst h2
            subst hg2
            exact ⟨fun h => by simp at h, fun h => absurd h hbig⟩
          · intro i2 g2 h2 hg2 hfit
            injection h2 with h2
            injection hg2 with hg2
            subst h2
            subst hg2
            exact ⟨fun h => by simp at h,
              fun h => by simp [h.1] at hocc2⟩
          · intro i2 g2 h2 hg2 hfit hns
            injection h2 with h2
            injection hg2 with hg2
            subst h2
            subst hg2
            refine ⟨rfl, seatCommit_asg_self s gid tid g, ?_,
              seatCommit_seated_self s gid tid g,
              seatCommit_groups_self s gid tid g hnd⟩
            rw [seatCommit_tables_self, ht]
            rfl

/-- Witness for C3 at a concrete state: a waiting group of size 3 seats
successfully at the free table "T" of capacity 4. -/
theorem C3_seat_characterization_witness :
    (seat_guests (runOps initPlanner
      [.addTable "T" 4 "R", .addGuests 3 none]) 1 "T").2.1 = true ∧
    getAsg (seat_guests (runOps initPlanner
      [.addTable "T" 4 "R", .addGuests 3 none]) 1 "T").1.assignments "T" =
      getAsg (runOps initPlanner
        [.addTable "T" 4 "R", .addGuests 3 none]).assignments "T" ++ [1] := by
  have h := (C3_seat_characterization (runOps initPlanner
    [.addTable "T" 4 "R", .addGuests 3 none]) 1 "T" (by decide)).2.2.2.2
    ⟨4, false, false, "R", none⟩ ⟨3, "Group 1"⟩ (by decide) (by decide)
    (by decide) (by decide)
  exact ⟨h.1, h.2.1⟩

/-! ### mark_group_left case analysis -/

theorem mark_group_left_not_seated (s : TablePlanner) (gid : Nat)
    (hd : lookupA s.seated_groups gid = none) :
    mark_group_left s gid = (s, false, "Group not found or not seated") := by
  simp [mark_group_left, hd]

theorem mark_group_left_skip (s : TablePlanner) (gid : Nat) (d : SeatedInfo)
    (hd : lookupA s.seated_groups gid = some d)
    (hout : ¬(containsA s.assignments d.table = true ∧
      gid ∈ getAsg s.assignments d.table)) :
    mark_group_left s gid =
      ({ s with seated_groups := eraseA s.seated_groups gid }, true,
        "Group marked as left") := by
  simp only [mark_group_left, hd]
  rw [if_neg hout]

theorem mark_group_left_nonempty (s : TablePlanner) (gid : Nat) (d : SeatedInfo)
    (hd : lookupA s.seated_groups gid = some d)
    (hin : containsA s.assignments d.table = true)
    (hmem : gid ∈ getAsg s.assignments d.table)
    (hne : removeFirst (getAsg s.assignments d.table) gid ≠ []) :
    mark_group_left s gid =
      ({ s with
          assignments := setA s.assignments d.table
            (removeFirst (getAsg s.assignments d.table) gid),
          seated_groups := eraseA s.seated_groups gid }, true,
        "Group marked as left") := by
  simp only [mark_group_left, hd]
  rw [if_pos ⟨hin, hmem⟩]
  rw [if_neg (by simpa [getAsg_setA_self] using hne)]

theorem mark_group_left_empty (s : TablePlanner) (gid : Nat) (d : SeatedInfo)
    (hd : lookupA s.seated_groups gid = some d)
    (hin : containsA s.assignments d.table = true)
    (hmem : gid ∈ getAsg s.assignments d.table)
    (hemp : removeFirst (getAsg s.assignments d.table) gid = [])
    (hnotd : ¬(hasPlus d.table = true ∧
      containsA s.combined_tables d.table = true)) :
    mark_group_left s gid =
      ({ s with
          assignments := setA s.assignments d.table
            (removeFirst (getAsg s.assignments d.table) gid),
          tables := adjustA (fun t => { t with occupied := false })
            s.tables d.table,
          seated_groups := eraseA s.seated_groups gid }, true,
        "Group marked as left") := by
  simp only [mark_group_left, hd]
  rw [if_pos ⟨hin, hmem⟩]
  rw [if_pos (by simpa [getAsg_setA_self] using hemp)]
  rw [if_neg hnotd]

theorem mark_group_left_teardown (s : TablePlanner) (gid : Nat) (d : SeatedInfo)
    (comps : List String)
    (hd : lookupA s.seated_groups gid = some d)
    (hin : containsA s.assignments d.table = true)
    (hmem : gid ∈ getAsg s.assignments d.table)
    (hemp : removeFirst (getAsg s.assignments d.table) gid = [])
    (hplus : hasPlus d.table = true)
    (hct : lookupA s.combined_tables d.table = some comps) :
    mark_group_left s gid =
      ({ s with
          assignments := eraseA
            (setA s.assignments d.table
              (removeFirst (getAsg s.assignments d.table) gid)) d.table,
          tables := eraseA
            (comps.foldl clearComp
              (adjustA (fun t => { t with occupied := false })
                s.tables d.table)) d.table,
          combined_tables := eraseA s.combined_tables d.table,
          seated_groups := eraseA s.seated_groups gid }, true,
        "Group marked as left") := by
  simp only [mark_group_left, hd]
  rw [if_pos ⟨hin, hmem⟩]
  rw [if_pos (by simpa [getAsg_setA_self] using hemp)]
  rw [if_pos ⟨hplus, by simp [containsA, hct]⟩]
  simp [hct]

/-! ### Claim C8 -/

/-- Claim C8: every rejected operation leaves the whole engine state exactly
unchanged.  `seat_guests`, `mark_group_left` and `rename_group` return the
original state on every failure result; `remove_table` signals no result at
all, and on an unknown table id it is the identity (so there is no failing
`removeTable` call that mutates anything). -/
theorem C8_failure_no_mutation (s : TablePlanner) (gid : Nat) (tid : String)
    (nm : String) :
    ((seat_guests s gid tid).2.1 = false → (seat_guests s gid tid).1 = s) ∧
    ((mark_group_left s gid).2.1 = false → (mark_group_left s gid).1 = s) ∧
    ((rename_group s gid nm).2 = false → (rename_group s gid nm).1 = s) ∧
    (lookupA s.tables tid = none → remove_table s tid = s) := by
  refine ⟨?_, ?_, ?_, ?_⟩
  · rcases ht : lookupA s.tables tid with _ | info
    · rw [seat_guests_table_none s gid tid ht]
      intro _
      rfl
    · rcases hg : lookupA s.groups gid with _ | g
      · rw [seat_guests_group_none s gid tid info ht hg]
        intro _
        rfl
      · by_cases hbig : g.size > info.capacity
        · rw [seat_guests_too_large s gid tid info g ht hg hbig]
          intro _
          rfl
        · by_cases hocc : info.occupied = true
          · by_cases hover : currentOccupancy s tid + g.size > info.capacity
            · rw [seat_guests_no_space s gid tid info g ht hg hbig hocc hover]
              intro _
              show { s with assignments := touchA s.assignments tid } = s
              rw [touchA_id_of_no_space s tid info.capacity g.size hbig hover]
            · rw [seat_guests_success_occupied s gid tid info g ht hg hbig
                hocc hover]
              intro h
              simp at h
          · have hocc2 : info.occupied = false := by
              revert hocc
              cases info.occupied <;> simp
            rw [seat_guests_success_free s gid tid info g ht hg hbig hocc2]
            intro h
            simp at h
  · rcases hd : lookupA s.seated_groups gid with _ | d
    · rw [mark_group_left_not_seated s gid hd]
      intro _
      rfl
    · intro h
      exfalso
      revert h
      simp only [mark_group_left, hd]
      intro h
      simp at h
  · rw [rename_group]
    rcases hg : containsA s.groups gid with _ | _
    · rcases hs : containsA s.seated_groups gid with _ | _
      · simp [hg, hs]
      · simp [hg, hs]
    · simp [hg]
  · intro ht
    rw [remove_table]
    rw [if_neg (by simp [containsA, ht])]

/-- Witness for C8 on the empty planner: the failing seat, release, rename
and the unknown-table remove all leave the state untouched. -/
theorem C8_failure_no_mutation_witness :
    (seat_guests initPlanner 1 "T").1 = initPlanner ∧
    (mark_group_left initPlanner 1).1 = initPlanner ∧
    (rename_group initPlanner 1 "X").1 = initPlanner ∧
    remove_table initPlanner "T" = initPlanner := by
  have h := C8_failure_no_mutation initPlanner 1 "T" "X"
  exact ⟨h.1 (by decide), h.2.1 (by decide), h.2.2.1 (by decide),
    h.2.2.2 (by decide)⟩

/-! ### Claim C10 -/

/-- Claim C10: while a combination is active, `seat_guests` aimed directly
at a component table `c` (marked `combined = true`, `occupied = true`, with
an empty assignment list) succeeds for every waiting group whose size fits
the component's own capacity: the occupancy check sums an empty list, so
the combined/occupied marking does not protect the component. -/
theorem C10_seat_component_succeeds (s : TablePlanner) (gid : Nat) (c : String)
    (info : TableInfo) (g : GroupInfo)
    (ht : lookupA s.tables c = some info)
    (_hcomb : info.combined = true) (hocc : info.occupied = true)
    (hempty : getAsg s.assignments c = [])
    (hg : lookupA s.groups gid = some g) (hsz : g.size ≤ info.capacity) :
    (seat_guests s gid c).2.1 = true ∧
    (seat_guests s gid c).2.2 = "Group seated successfully" ∧
    getAsg (seat_guests s gid c).1.assignments c = [gid] ∧
    lookupA (seat_guests s gid c).1.seated_groups gid =
      some { size := g.size, name := g.name, table := c } := by
  have hover : ¬currentOccupancy s c + g.size > info.capacity := by
    rw [occupancy_zero_of_nil s c hempty]
    omega
  rw [seat_guests_success_occupied s gid c info g ht hg (by omega) hocc hover]
  refine ⟨rfl, rfl, ?_, seatCommit_seated_self s gid c g⟩
  rw [seatCommit_asg_self, hempty]
  rfl

/-- Witness for C10: after combining "A" and "B" for a seated group of 4, a
waiting group of 2 seats directly at component "A". -/
theorem C10_seat_component_succeeds_witness :
    (seat_guests (runOps initPlanner
      [.addTable "A" 2 "R", .addTable "B" 2 "R", .addGuests 4 none,
       .findTable 4 1, .seat 1 "A+B", .addGuests 2 none]) 2 "A").2.1 = true ∧
    getAsg (seat_guests (runOps initPlanner
      [.addTable "A" 2 "R", .addTable "B" 2 "R", .addGuests 4 none,
       .findTable 4 1, .seat 1 "A+B", .addGuests 2 none]) 2 "A").1.assignments
      "A" = [2] := by
  have h := C10_seat_component_succeeds (runOps initPlanner
    [.addTable "A" 2 "R", .addTable "B" 2 "R", .addGuests 4 none,
     .findTable 4 1, .seat 1 "A+B", .addGuests 2 none]) 2 "A"
    ⟨2, true, true, "R", none⟩ ⟨2, "Group 2"⟩
    (by decide) (by decide) (by decide) (by decide) (by decide) (by decide)
  exact ⟨h.1, h.2.2.1⟩

/-! ### Claim C9 -/

/-- Claim C9: for a non-combined table (base id, `combined = false`, whose
occupied flag agrees with its assignment list) and a waiting group not
already listed there, a successful `seat_guests` followed immediately by
`mark_group_left` restores the table's record (occupied flag included) and
its assignment list to their pre-seat values. -/
theorem C9_seat_release_roundtrip (s : TablePlanner) (gid : Nat) (tid : String)
    (info : TableInfo) (g : GroupInfo)
    (ht : lookupA s.tables tid = some info)
    (hplus : hasPlus tid = false)
    (_hcomb : info.combined = false)
    (hiff : info.occupied = true ↔ getAsg s.assignments tid ≠ [])
    (hg : lookupA s.groups gid = some g)
    (hnotin : gid ∉ getAsg s.assignments tid)
    (hsucc : (seat_guests s gid tid).2.1 = true) :
    lookupA (mark_group_left (seat_guests s gid tid).1 gid).1.tables tid =
      some info ∧
    getAsg (mark_group_left (seat_guests s gid tid).1 gid).1.assignments tid =
      getAsg s.assignments tid := by
  by_cases hbig : g.size > info.capacity
  · rw [seat_guests_too_large s gid tid info g ht hg hbig] at hsucc
    simp at hsucc
  have hseat : (seat_guests s gid tid).1 = seatCommit s gid tid g := by
    by_cases hocc : info.occupied = true
    · by_cases hover : currentOccupancy s tid + g.size > info.capacity
      · rw [seat_guests_no_space s gid tid info g ht hg hbig hocc hover] at hsucc
        simp at hsucc
      · rw [seat_guests_success_occupied s gid tid info g ht hg hbig hocc hover]
    · have hocc2 : info.occupied = false := by
        revert hocc
        cases info.occupied <;> simp
      rw [seat_guests_success_free s gid tid info g ht hg hbig hocc2]
  rw [hseat]
  have hd : lookupA (seatCommit s gid tid g).seated_groups gid =
      some { size := g.size, name := g.name, table := tid } :=
    seatCommit_seated_self s gid tid g
  have hasg : getAsg (seatCommit s gid tid g).assignments tid =
      getAsg s.assignments tid ++ [gid] := seatCommit_asg_self s gid tid g
  have hrm : removeFirst (getAsg (seatCommit s gid tid g).assignments tid) gid =
      getAsg s.assignments tid := by
    rw [hasg]
    exact removeFirst_append_self _ _ hnotin
  have hin : containsA (seatCommit s gid tid g).assignments tid = true := by
    apply getAsg_ne_nil_contains
    rw [hasg]
    simp
  have hmem : gid ∈ getAsg (seatCommit s gid tid g).assignments tid := by
    rw [hasg]
    simp
  by_cases hnil : getAsg s.assignments tid = []
  · -- the list was empty before the seat: the release empties it again and
    -- clears the occupied flag, which was false before the seat
    have hoccf : info.occupied = false := by
      rcases hb : info.occupied with _ | _
      · rfl
      · exact absurd (hiff.mp hb) (by simp [hnil])
    rw [mark_group_left_empty (seatCommit s gid tid g) gid
      { size := g.size, name := g.name, table := tid } hd hin hmem
      (by rw [hrm]; exact hnil) (by simp [hplus])]
    constructor
    · show lookupA (adjustA (fun t => { t with occupied := false })
        (seatCommit s gid tid g).tables tid) tid = some info
      rw [lookupA_adjustA_self, seatCommit_tables_self, ht]
      show some { info with occupied := false } = some info
      rw [← hoccf]
    · show getAsg (setA (seatCommit s gid tid g).assignments tid
        (removeFirst (getAsg (seatCommit s gid tid g).assignments tid) gid))
        tid = getAsg s.assignments tid
      rw [getAsg_setA_self, hrm]
  · -- the list was non-empty before the seat: the occupied flag stays true,
    -- which is its pre-seat value
    have hocct : info.occupied = true := hiff.mpr hnil
    rw [mark_group_left_nonempty (seatCommit s gid tid g) gid
      { size := g.size, name := g.name, table := tid } hd hin hmem
      (by rw [hrm]; exact hnil)]
    constructor
    · show lookupA (seatCommit s gid tid g).tables tid = some info
      rw [seatCommit_tables_self, ht]
      show some { info with occupied := true } = some info
      rw [← hocct]
    · show getAsg (setA (seatCommit s gid tid g).assignments tid
        (removeFirst (getAsg (seatCommit s gid tid g).assignments tid) gid))
        tid = getAsg s.assignments tid
      rw [getAsg_setA_self, hrm]

/-- Witness for C9: seat a waiting group of 3 at the free base table "T"
(capacity 4) and release it again; the table record and assignment list
return to their pre-seat values. -/
theorem C9_seat_release_roundtrip_witness :
    lookupA (mark_group_left (seat_guests (runOps initPlanner
      [.addTable "T" 4 "R", .addGuests 3 none]) 1 "T").1 1).1.tables "T" =
      some { capacity := 4, occupied := false, combined := false,
             room := "R", component_tables := none } ∧
    getAsg (mark_group_left (seat_guests (runOps initPlanner
      [.addTable "T" 4 "R", .addGuests 3 none]) 1 "T").1 1).1.assignments "T" =
      getAsg (runOps initPlanner
        [.addTable "T" 4 "R", .addGuests 3 none]).assignments "T" :=
  C9_seat_release_roundtrip (runOps initPlanner
      [.addTable "T" 4 "R", .addGuests 3 none]) 1 "T"
    ⟨4, false, false, "R", none⟩ ⟨3, "Group 1"⟩
    (by decide) (by decide) (by decide) (by decide) (by decide) (by decide)
    (by decide)

/-! ### Claim C5 -/

theorem hasPlus_ne (a b : String) (ha : hasPlus a = false)
    (hb : hasPlus b = true) : a ≠ b := by
  intro h
  rw [h, hb] at ha
  cases ha

/-- Claim C5: releasing the sole occupant of a combined table restores every
component to `occupied = false, combined = false` and deletes the combined
id from the Table Registry, the Assignment Index and the combination
bookkeeping (and the group itself leaves the seated ledger). -/
theorem C5_combined_release_teardown (s : TablePlanner) (gid : Nat)
    (cid : String) (comps : List String) (d : SeatedInfo)
    (hd : lookupA s.seated_groups gid = some d) (hdt : d.table = cid)
    (hct : lookupA s.combined_tables cid = some comps)
    (hplus : hasPlus cid = true)
    (hcomps : ∀ c ∈ comps, hasPlus c = false)
    (hasg : getAsg s.assignments cid = [gid])
    (hndT : ndKeys s.tables) (hndA : ndKeys s.assignments)
    (hndC : ndKeys s.combined_tables) (hndS : ndKeys s.seated_groups) :
    (∀ c ∈ comps, ∀ ci, lookupA s.tables c = some ci →
      lookupA (mark_group_left s gid).1.tables c =
        some { ci with occupied := false, combined := false }) ∧
    lookupA (mark_group_left s gid).1.tables cid = none ∧
    lookupA (mark_group_left s gid).1.assignments cid = none ∧
    lookupA (mark_group_left s gid).1.combined_tables cid = none ∧
    lookupA (mark_group_left s gid).1.seated_groups gid = none := by
  subst hdt
  have hin : containsA s.assignments d.table = true :=
    getAsg_ne_nil_contains _ _ (by simp [hasg])
  have hmem : gid ∈ getAsg s.assignments d.table := by
    simp [hasg]
  have hemp : removeFirst (getAsg s.assignments d.table) gid = [] := by
    rw [hasg]
    simp [removeFirst]
  rw [mark_group_left_teardown s gid d comps hd hin hmem hemp hplus hct]
  have hclear : ∀ b : TableInfo,
      (fun t => { t with occupied := false, combined := false })
        ((fun t => { t with occupied := false, combined := false }) b) =
      (fun t => { t with occupied := false, combined := false }) b := by
    intro b
    rfl
  have hndT2 : ndKeys (comps.foldl clearComp
      (adjustA (fun t => { t with occupied := false }) s.tables d.table)) := by
    unfold ndKeys
    rw [foldl_clearComp_eq, keys_foldl_adjustA, keys_adjustA]
    exact hndT
  refine ⟨?_, ?_, ?_, ?_, ?_⟩
  · intro c hc ci hci
    have hcne : c ≠ d.table := hasPlus_ne c d.table (hcomps c hc) hplus
    show lookupA (eraseA (comps.foldl clearComp
      (adjustA (fun t => { t with occupied := false }) s.tables d.table))
      d.table) c = some { ci with occupied := false, combined := false }
    rw [lookupA_eraseA_ne _ _ _ hcne, foldl_clearComp_eq,
      lookupA_foldl_adjustA _ hclear, if_pos hc,
      lookupA_adjustA_ne _ _ _ _ hcne, hci]
    rfl
  · show lookupA (eraseA (comps.foldl clearComp
      (adjustA (fun t => { t with occupied := false }) s.tables d.table))
      d.table) d.table = none
    exact lookupA_eraseA_self _ _ hndT2
  · show lookupA (eraseA (setA s.assignments d.table
      (removeFirst (getAsg s.assignments d.table) gid)) d.table) d.table = none
    exact lookupA_eraseA_self _ _ (ndKeys_setA _ _ _ hndA)
  · exact lookupA_eraseA_self _ _ hndC
  · exact lookupA_eraseA_self _ _ hndS

/-- Witness for C5: group 1 of size 4 is the sole occupant of combined
table "A+B"; releasing it frees components "A" and "B" and removes "A+B"
everywhere. -/
theorem C5_combined_release_teardown_witness :
    lookupA (mark_group_left (runOps initPlanner
      [.addTable "A" 2 "R", .addTable "B" 2 "R", .addGuests 4 none,
       .findTable 4 1, .seat 1 "A+B"]) 1).1.tables "A" =
      some { capacity := 2, occupied := false, combined := false,
             room := "R", component_tables := none } ∧
    lookupA (mark_group_left (runOps initPlanner
      [.addTable "A" 2 "R", .addTable "B" 2 "R", .addGuests 4 none,
       .findTable 4 1, .seat 1 "A+B"]) 1).1.tables "A+B" = none ∧
    lookupA (mark_group_left (runOps initPlanner
      [.addTable "A" 2 "R", .addTable "B" 2 "R", .addGuests 4 none,
       .findTable 4 1, .seat 1 "A+B"]) 1).1.combined_tables "A+B" = none := by
  have h := C5_combined_release_teardown (runOps initPlanner
      [.addTable "A" 2 "R", .addTable "B" 2 "R", .addGuests 4 none,
       .findTable 4 1, .seat 1 "A+B"]) 1 "A+B" ["A", "B"]
    ⟨4, "Group 1", "A+B"⟩ (by decide) (by decide) (by decide) (by decide)
    (by decide) (by decide) (by decide) (by decide) (by decide) (by decide)
  exact ⟨h.1 "A" (by decide) ⟨2, true, true, "R", none⟩ (by decide),
    h.2.1, h.2.2.2.1⟩

/-! ### Claim C1 -/

/-- Claim C1: the claimed invariant `sum of seated group sizes ≤ capacity`
is broken by the code.  `add_table` silently overwrites an existing record
(the spec itself flags this as a bug): seat a group of 3 at a table of
capacity 4, then re-add the same table id with capacity 2 — the assignment
list still carries the size-3 group, exceeding the new capacity. -/
theorem C1_overwrite_breaks_capacity :
    ∃ (t : String) (info : TableInfo),
      lookupA (runOps initPlanner
        [.addTable "T1" 4 "R", .addGuests 3 none, .seat 1 "T1",
         .addTable "T1" 2 "R"]).tables t = some info ∧
      info.capacity < currentOccupancy (runOps initPlanner
        [.addTable "T1" 4 "R", .addGuests 3 none, .seat 1 "T1",
         .addTable "T1" 2 "R"]) t := by
  exact ⟨"T1", ⟨2, false, false, "R", none⟩, by decide, by decide⟩

/-! ### Claim C6 -/

/-- Claim C6: `add_table` on a fresh id inserts a non-combined, unoccupied
record, but on a duplicate id it does not fail with `DuplicateTable` and
does not leave the existing record unchanged — it silently overwrites it
(here capacity 4 becomes 1). -/
theorem C6_duplicate_add_overwrites :
    lookupA (add_table initPlanner "T1" 4 "R").tables "T1" =
      some { capacity := 4, occupied := false, combined := false,
             room := "R", component_tables := none } ∧
    lookupA (add_table (add_table initPlanner "T1" 4 "R") "T1" 1 "R").tables "T1" =
      some { capacity := 1, occupied := false, combined := false,
             room := "R", component_tables := none } := by
  decide

/-! ### Claim C2, counterexample -/

/-- Claim C2, counterexample: `occupied == (assignment list non-empty)` fails
at a reachable state.  After three well-behaved commands and a
`find_best_table_for_group` call that synthesizes a combination, component
table "A" has `occupied = true` while its assignment list is empty. -/
theorem C2_counterexample :
    ∃ (s : TablePlanner) (t : String) (info : TableInfo),
      ReachableG s ∧ lookupA s.tables t = some info ∧
      info.occupied = true ∧ getAsg s.assignments t = [] := by
  have h1 : ReachableG (applyOp initPlanner (.addTable "A" 2 "R")) :=
    .step initPlanner (.addTable "A" 2 "R") .init (by decide)
  have h2 : ReachableG (applyOp (applyOp initPlanner (.addTable "A" 2 "R"))
      (.addTable "B" 2 "R")) :=
    .step _ (.addTable "B" 2 "R") h1 (by decide)
  have h3 : ReachableG (applyOp (applyOp (applyOp initPlanner
      (.addTable "A" 2 "R")) (.addTable "B" 2 "R")) (.addGuests 4 none)) :=
    .step _ (.addGuests 4 none) h2 (by decide)
  have h4 : ReachableG (applyOp (applyOp (applyOp (applyOp initPlanner
      (.addTable "A" 2 "R")) (.addTable "B" 2 "R")) (.addGuests 4 none))
      (.findTable 4 1)) :=
    .step _ (.findTable 4 1) h3 (by decide)
  exact ⟨runOps initPlanner
      [.addTable "A" 2 "R", .addTable "B" 2 "R", .addGuests 4 none,
       .findTable 4 1],
    "A", ⟨2, true, true, "R", none⟩, h4, by decide, by decide, by decide⟩

/-! ### Claim C7, counterexample -/

/-- Claim C7, counterexample: `optimize_seating` newly seats group 1 (it
moves from waiting to seated at table "T"), yet emits no entry for it —
the function returns nothing and its only output channel, the message log,
stays empty because no tables were combined. -/
theorem C7_counterexample :
    lookupA (runOps initPlanner
      [.addTable "T" 4 "R", .addGuests 3 none]).seated_groups 1 = none ∧
    lookupA (optimize_seating (runOps initPlanner
      [.addTable "T" 4 "R", .addGuests 3 none])).seated_groups 1 =
      some { size := 3, name := "Group 1", table := "T" } ∧
    (optimize_seating (runOps initPlanner
      [.addTable "T" 4 "R", .addGuests 3 none])).messages = [] := by
  decide

/-! ### find_best_table_for_group: both phases scan exactly the free base
tables -/

theorem findSingle_filter (tbls : List (String × TableInfo)) (n : Int) :
    findSingle tbls n = findSingle (freeList tbls) n := by
  induction tbls with
  | nil => rfl
  | cons p rest ih =>
    obtain ⟨a, b⟩ := p
    by_cases hf : isFreeBase a b = true
    · simp only [freeList, List.filter_cons] at *
      simp only [hf, if_true]
      rw [findSingle, if_pos hf, findSingle, if_pos hf]
      by_cases hn : n ≤ b.capacity
      · rw [if_pos hn, if_pos hn]
      · rw [if_neg hn, if_neg hn, ih]
    · have hf2 : isFreeBase a b = false := by
        revert hf
        cases isFreeBase a b <;> simp
      simp only [freeList, List.filter_cons] at *
      simp only [hf2, Bool.false_eq_true, if_false]
      rw [findSingle, if_neg (by simp [hf2]), ih]

theorem groupEmptyByRoom_aux (tbls : List (String × TableInfo))
    (acc : List (String × List (String × Int))) :
    tbls.foldl (fun acc p =>
      if isFreeBase p.1 p.2 then addToRoom acc p.2.room (p.1, p.2.capacity)
      else acc) acc =
    (freeList tbls).foldl (fun acc p =>
      addToRoom acc p.2.room (p.1, p.2.capacity)) acc := by
  induction tbls generalizing acc with
  | nil => rfl
  | cons p rest ih =>
    obtain ⟨a, b⟩ := p
    by_cases hf : isFreeBase a b = true
    · simp only [freeList, List.filter_cons] at *
      simp only [hf, if_true, List.foldl_cons]
      rw [ih]
    · have hf2 : isFreeBase a b = false := by
        revert hf
        cases isFreeBase a b <;> simp
      simp only [freeList, List.filter_cons] at *
      simp only [hf2, Bool.false_eq_true, if_false, List.foldl_cons]
      rw [ih]

theorem groupEmptyByRoom_filter (tbls : List (String × TableInfo)) :
    groupEmptyByRoom tbls = (freeList tbls).foldl (fun acc p =>
      addToRoom acc p.2.room (p.1, p.2.capacity)) [] := by
  rw [groupEmptyByRoom]
  exact groupEmptyByRoom_aux tbls []

/-! ### Claim C4 -/

/-- Claim C4: in any registry state whose free base tables are exactly
A, B, C of capacity 2 in room R (in that iteration order), a search for a
group of 5 finds no single table, then the combination phase accumulates
largest-first (all equal here, so insertion order is kept) and synthesizes
the combined table "A+B+C" of capacity 6 ≥ 5 with components [A, B, C],
marking all three components `occupied = true` and `combined = true`. -/
theorem C4_combination_scenario (s : TablePlanner) (gid : Nat)
    (hndT : ndKeys s.tables)
    (hfree : freeList s.tables =
      [("A", ⟨2, false, false, "R", none⟩), ("B", ⟨2, false, false, "R", none⟩),
       ("C", ⟨2, false, false, "R", none⟩)]) :
    (find_best_table_for_group s 5 gid).2 =
      (some "A+B+C", true, some ["A", "B", "C"]) ∧
    lookupA (find_best_table_for_group s 5 gid).1.tables "A+B+C" =
      some ⟨6, true, true, "R", some ["A", "B", "C"]⟩ ∧
    (∀ c ∈ (["A", "B", "C"] : List String),
      lookupA (find_best_table_for_group s 5 gid).1.tables c =
        some ⟨2, true, true, "R", none⟩) := by
  have hmem : ∀ c : String, (c, (⟨2, false, false, "R", none⟩ : TableInfo)) ∈
      freeList s.tables → lookupA s.tables c =
      some ⟨2, false, false, "R", none⟩ := by
    intro c hc
    exact mem_lookupA _ _ _ hndT (List.mem_filter.mp hc).1
  have hA : lookupA s.tables "A" = some ⟨2, false, false, "R", none⟩ :=
    hmem "A" (by rw [hfree]; simp)
  have hB : lookupA s.tables "B" = some ⟨2, false, false, "R", none⟩ :=
    hmem "B" (by rw [hfree]; simp)
  have hC : lookupA s.tables "C" = some ⟨2, false, false, "R", none⟩ :=
    hmem "C" (by rw [hfree]; simp)
  have h1 : findSingle s.tables 5 = none := by
    rw [findSingle_filter, hfree]
    decide
  have h3 : searchRooms 5 (groupEmptyByRoom s.tables) =
      some ("R", ["A", "B", "C"], 6) := by
    rw [groupEmptyByRoom_filter, hfree]
    decide
  have hred : find_best_table_for_group s 5 gid =
      ({ s with
          tables := setA ((["A", "B", "C"] : List String).foldl markCombined
            s.tables) "A+B+C" ⟨6, true, true, "R", some ["A", "B", "C"]⟩,
          combined_tables := setA s.combined_tables "A+B+C" ["A", "B", "C"],
          assignments := setA s.assignments "A+B+C" [] },
        some "A+B+C", true, some ["A", "B", "C"]) := by
    rw [find_best_table_for_group]
    simp only [h1, h3]
    rw [show joinPlus ["A", "B", "C"] = "A+B+C" from by decide]
  have hcombT : ∀ b : TableInfo,
      (fun t => { t with combined := true, occupied := true })
        ((fun t => { t with combined := true, occupied := true }) b) =
      (fun t => { t with combined := true, occupied := true }) b := by
    intro b
    rfl
  refine ⟨by rw [hred], ?_, ?_⟩
  · rw [hred]
    show lookupA (setA ((["A", "B", "C"] : List String).foldl markCombined
      s.tables) "A+B+C" ⟨6, true, true, "R", some ["A", "B", "C"]⟩) "A+B+C" =
      some ⟨6, true, true, "R", some ["A", "B", "C"]⟩
    rw [lookupA_setA_self]
  · intro c hc
    rw [hred]
    show lookupA (setA ((["A", "B", "C"] : List String).foldl markCombined
      s.tables) "A+B+C" ⟨6, true, true, "R", some ["A", "B", "C"]⟩) c =
      some ⟨2, true, true, "R", none⟩
    have hc2 : c = "A" ∨ c = "B" ∨ c = "C" := by
      simpa using hc
    have hcne : c ≠ "A+B+C" := by
      rcases hc2 with hc2 | hc2 | hc2 <;> subst hc2 <;> decide
    rw [lookupA_setA_ne _ _ _ _ hcne, foldl_markCombined_eq,
      lookupA_foldl_adjustA _ hcombT, if_pos hc]
    rcases hc2 with hc2 | hc2 | hc2
    · subst hc2; rw [hA]; rfl
    · subst hc2; rw [hB]; rfl
    · subst hc2; rw [hC]; rfl

/-- Witness for C4: the registry holding exactly tables A, B, C of
capacity 2 in room R. -/
theorem C4_combination_scenario_witness :
    (find_best_table_for_group (runOps initPlanner
      [.addTable "A" 2 "R", .addTable "B" 2 "R", .addTable "C" 2 "R"])
      5 1).2 = (some "A+B+C", true, some ["A", "B", "C"]) ∧
    lookupA (find_best_table_for_group (runOps initPlanner
      [.addTable "A" 2 "R", .addTable "B" 2 "R", .addTable "C" 2 "R"])
      5 1).1.tables "A" = some ⟨2, true, true, "R", none⟩ := by
  have h := C4_combination_scenario (runOps initPlanner
    [.addTable "A" 2 "R", .addTable "B" 2 "R", .addTable "C" 2 "R"]) 1
    (by decide) (by decide)
  exact ⟨h.1, h.2.2 "A" (by decide)⟩

/-! ### The invariant: basic lemmas and the easy operations -/

theorem contains_of_lookup {α β : Type} [DecidableEq α]
    (l : List (α × β)) (k : α) (v : β) (h : lookupA l k = some v) :
    containsA l k = true := by
  simp [containsA, h]

theorem containsA_setA_self {α β : Type} [DecidableEq α]
    (l : List (α × β)) (k : α) (v : β) : containsA (setA l k v) k = true := by
  simp [containsA, lookupA_setA_self]

theorem containsA_setA_ne {α β : Type} [DecidableEq α]
    (l : List (α × β)) (k x : α) (v : β) (h : x ≠ k) :
    containsA (setA l k v) x = containsA l x := by
  simp [containsA, lookupA_setA_ne _ _ _ _ h]

theorem getAsg_nil_of_not_contains (l : List (String × List Nat)) (k : String)
    (h : containsA l k = false) : getAsg l k = [] := by
  simp [getAsg, lookupA_none_of_not_contains _ _ h]

theorem inv_core_eq (s sp : TablePlanner) (hT : sp.tables = s.tables)
    (hA : sp.assignments = s.assignments)
    (hC : sp.combined_tables = s.combined_tables) (h : Inv s) : Inv sp := by
  constructor
  all_goals simp only [hT, hA, hC]
  · exact h.ndT
  · exact h.ndA
  · exact h.ndC
  · exact h.asgKeys
  · exact h.emptyFree
  · exact h.occIff
  · exact h.ctPlus
  · exact h.compNoPlus
  · exact h.compEmpty
  · exact h.compFlag
  · exact h.compPresent
  · exact h.compDisj

theorem inv_init : Inv initPlanner := by
  constructor
  · exact List.nodup_nil
  · exact List.nodup_nil
  · exact List.nodup_nil
  · intro t ht
    simp [containsA, lookupA] at ht
  · intro t info ht
    simp [lookupA] at ht
  · intro t info ht
    simp [lookupA] at ht
  · intro cid hc
    simp [containsA, lookupA] at hc
  · intro cid comps hc
    simp [lookupA] at hc
  · intro cid comps hc
    simp [lookupA] at hc
  · intro cid comps hc
    simp [lookupA] at hc
  · intro cid comps hc
    simp [lookupA] at hc
  · intro cid1 comps1 cid2 comps2 hc1
    simp [lookupA] at hc1

theorem inv_add_guests (s : TablePlanner) (n : Int) (nm : Option String)
    (h : Inv s) : Inv (add_guests s n nm).1 := by
  exact inv_core_eq s _ rfl rfl rfl h

theorem inv_rename (s : TablePlanner) (gid : Nat) (nm : String) (h : Inv s) :
    Inv (rename_group s gid nm).1 := by
  rw [rename_group]
  by_cases h1 : containsA s.groups gid = true
  · simp only [h1, if_true]
    exact inv_core_eq s _ rfl rfl rfl h
  · simp only [h1, Bool.false_eq_true, if_false]
    by_cases h2 : containsA s.seated_groups gid = true
    · simp only [h2, if_true]
      exact inv_core_eq s _ rfl rfl rfl h
    · simp only [h2, Bool.false_eq_true, if_false]
      exact h

theorem add_table_tables (s : TablePlanner) (t : String) (cap : Int)
    (r : String) : (add_table s t cap r).tables =
      setA s.tables t ⟨cap, false, false, r, none⟩ := rfl

theorem add_table_asg (s : TablePlanner) (t : String) (cap : Int)
    (r : String) : (add_table s t cap r).assignments = s.assignments := rfl

theorem add_table_ct (s : TablePlanner) (t : String) (cap : Int)
    (r : String) : (add_table s t cap r).combined_tables =
      s.combined_tables := rfl

theorem inv_add_table (s : TablePlanner) (t : String) (cap : Int) (r : String)
    (hfresh : containsA s.tables t = false) (hplus : hasPlus t = false)
    (h : Inv s) : Inv (add_table s t cap r) := by
  have hasgT : containsA s.assignments t = false := by
    rcases hx : containsA s.assignments t with _ | _
    · rfl
    · rw [h.asgKeys t hx] at hfresh
      cases hfresh
  constructor
  all_goals simp only [add_table_tables, add_table_asg, add_table_ct]
  · exact ndKeys_setA _ _ _ h.ndT
  · exact h.ndA
  · exact h.ndC
  · intro x hx
    by_cases hxt : x = t
    · subst hxt
      exact containsA_setA_self _ _ _
    · rw [containsA_setA_ne _ _ _ _ hxt]
      exact h.asgKeys x hx
  · intro x info hx hocc
    by_cases hxt : x = t
    · subst hxt
      exact getAsg_nil_of_not_contains _ _ hasgT
    · rw [lookupA_setA_ne _ _ _ _ hxt] at hx
      exact h.emptyFree x info hx hocc
  · intro x info hx hcomb
    by_cases hxt : x = t
    · subst hxt
      rw [lookupA_setA_self] at hx
      cases hx
      simp [getAsg_nil_of_not_contains _ _ hasgT]
    · rw [lookupA_setA_ne _ _ _ _ hxt] at hx
      exact h.occIff x info hx hcomb
  · exact h.ctPlus
  · exact h.compNoPlus
  · intro cid comps hct hact c hc
    by_cases hcid : cid = t
    · subst hcid
      rw [h.ctPlus cid (contains_of_lookup _ _ _ hct)] at hplus
      cases hplus
    · rw [containsA_setA_ne _ _ _ _ hcid] at hact
      exact h.compEmpty cid comps hct hact c hc
  · intro cid comps hct hact c hc ci hci
    by_cases hcid : cid = t
    · subst hcid
      rw [h.ctPlus cid (contains_of_lookup _ _ _ hct)] at hplus
      cases hplus
    · rw [containsA_setA_ne _ _ _ _ hcid] at hact
      by_cases hct2 : c = t
      · subst hct2
        rw [h.compPresent cid comps hct hact c hc] at hfresh
        cases hfresh
      · rw [lookupA_setA_ne _ _ _ _ hct2] at hci
        exact h.compFlag cid comps hct hact c hc ci hci
  · intro cid comps hct hact c hc
    by_cases hcid : cid = t
    · subst hcid
      rw [h.ctPlus cid (contains_of_lookup _ _ _ hct)] at hplus
      cases hplus
    · rw [containsA_setA_ne _ _ _ _ hcid] at hact
      by_cases hct2 : c = t
      · subst hct2
        exact containsA_setA_self _ _ _
      · rw [containsA_setA_ne _ _ _ _ hct2]
        exact h.compPresent cid comps hct hact c hc
  · intro cid1 comps1 cid2 comps2 h1 h2 ha1 ha2 hne c hc
    by_cases hc1 : cid1 = t
    · subst hc1
      rw [h.ctPlus cid1 (contains_of_lookup _ _ _ h1)] at hplus
      cases hplus
    · by_cases hc2 : cid2 = t
      · subst hc2
        rw [h.ctPlus cid2 (contains_of_lookup _ _ _ h2)] at hplus
        cases hplus
      · rw [containsA_setA_ne _ _ _ _ hc1] at ha1
        rw [containsA_setA_ne _ _ _ _ hc2] at ha2
        exact h.compDisj cid1 comps1 cid2 comps2 h1 h2 ha1 ha2 hne c hc

/-! ### Soundness facts about the combination search -/

theorem findSingle_none_small (tbls : List (String × TableInfo)) (n : Int)
    (h : findSingle tbls n = none) :
    ∀ a b, (a, b) ∈ tbls → isFreeBase a b = true → b.capacity < n := by
  induction tbls with
  | nil => intro a b hm; simp at hm
  | cons p rest ih =>
    obtain ⟨x, y⟩ := p
    intro a b hm hf
    rcases List.mem_cons.mp hm with hm | hm
    · rw [Prod.mk.injEq] at hm
      obtain ⟨rfl, rfl⟩ := hm
      rw [findSingle, if_pos hf] at h
      by_cases hn : n ≤ b.capacity
      · rw [if_pos hn] at h
        cases h
      · omega
    · by_cases hfx : isFreeBase x y = true
      · rw [findSingle, if_pos hfx] at h
        by_cases hn : n ≤ y.capacity
        · rw [if_pos hn] at h
          cases h
        · rw [if_neg hn] at h
          exact ih h a b hm hf
      · rw [findSingle, if_neg hfx] at h
        exact ih h a b hm hf

theorem mem_setA_cases {α β : Type} [DecidableEq α]
    (l : List (α × β)) (k : α) (v : β) (p : α × β) (h : p ∈ setA l k v) :
    p ∈ l ∨ p = (k, v) := by
  induction l with
  | nil =>
    simp only [setA, List.mem_singleton] at h
    exact Or.inr h
  | cons q rest ih =>
    obtain ⟨a, b⟩ := q
    by_cases hk : a = k
    · simp only [setA, if_pos hk, List.mem_cons] at h
      rcases h with h | h
      · exact Or.inr h
      · exact Or.inl (List.mem_cons_of_mem _ h)
    · simp only [setA, if_neg hk, List.mem_cons] at h
      rcases h with h | h
      · exact Or.inl (h ▸ List.mem_cons_self _ _)
      · rcases ih h with h | h
        · exact Or.inl (List.mem_cons_of_mem _ h)
        · exact Or.inr h

/-- Bucket soundness for `addToRoom`: a predicate on (room, entry) pairs
that holds of all existing bucket entries and of the inserted entry holds
of all resulting bucket entries. -/
theorem addToRoom_sound (Q : String → String × Int → Prop)
    (acc : List (String × List (String × Int))) (room : String)
    (e : String × Int)
    (hacc : ∀ room2 lst, (room2, lst) ∈ acc → ∀ x ∈ lst, Q room2 x)
    (he : Q room e) :
    ∀ room2 lst, (room2, lst) ∈ addToRoom acc room e → ∀ x ∈ lst, Q room2 x := by
  intro room2 lst hmem x hx
  rw [addToRoom] at hmem
  rcases hl : lookupA acc room with _ | lst0
  · rw [hl] at hmem
    rcases List.mem_append.mp hmem with hmem | hmem
    · exact hacc room2 lst hmem x hx
    · simp only [List.mem_singleton] at hmem
      cases hmem
      simp only [List.mem_singleton] at hx
      subst hx
      exact he
  · rw [hl] at hmem
    rcases mem_setA_cases _ _ _ _ hmem with hmem | hmem
    · exact hacc room2 lst hmem x hx
    · cases hmem
      rcases List.mem_append.mp hx with hx | hx
      · exact hacc room (lst0) (lookupA_mem _ _ _ hl) x hx
      · simp only [List.mem_singleton] at hx
        subst hx
        exact he

theorem groupEmptyByRoom_sound (tbls : List (String × TableInfo))
    (Q : String → String × Int → Prop)
    (hall : ∀ p : String × TableInfo, p ∈ tbls → isFreeBase p.1 p.2 = true →
      Q p.2.room (p.1, p.2.capacity)) :
    ∀ room lst, (room, lst) ∈ groupEmptyByRoom tbls → ∀ x ∈ lst, Q room x := by
  rw [groupEmptyByRoom]
  suffices hgen : ∀ (l : List (String × TableInfo))
      (acc : List (String × List (String × Int))),
      (∀ p : String × TableInfo, p ∈ l → isFreeBase p.1 p.2 = true →
        Q p.2.room (p.1, p.2.capacity)) →
      (∀ room lst, (room, lst) ∈ acc → ∀ x ∈ lst, Q room x) →
      ∀ room lst, (room, lst) ∈ l.foldl (fun acc p =>
        if isFreeBase p.1 p.2 then addToRoom acc p.2.room (p.1, p.2.capacity)
        else acc) acc → ∀ x ∈ lst, Q room x by
    intro room lst hmem
    exact hgen tbls [] hall (by intro r l h; simp at h) room lst hmem
  intro l
  induction l with
  | nil =>
    intro acc hl hacc room lst hmem
    exact hacc room lst hmem
  | cons p rest ih =>
    intro acc hl hacc room lst hmem
    simp only [List.foldl_cons] at hmem
    by_cases hf : isFreeBase p.1 p.2 = true
    · rw [if_pos hf] at hmem
      exact ih _ (fun q hq => hl q (List.mem_cons_of_mem _ hq))
        (addToRoom_sound Q acc p.2.room (p.1, p.2.capacity) hacc
          (hl p (List.mem_cons_self _ _) hf)) room lst hmem
    · rw [if_neg hf] at hmem
      exact ih _ (fun q hq => hl q (List.mem_cons_of_mem _ hq)) hacc
        room lst hmem

theorem mem_insertDesc (x y : String × Int) (l : List (String × Int))
    (h : x ∈ insertDesc y l) : x = y ∨ x ∈ l := by
  induction l with
  | nil =>
    simp only [insertDesc, List.mem_singleton] at h
    exact Or.inl h
  | cons z rest ih =>
    rw [insertDesc] at h
    by_cases hc : y.2 ≤ z.2
    · rw [if_pos hc] at h
      rcases List.mem_cons.mp h with h | h
      · exact Or.inr (h ▸ List.mem_cons_self _ _)
      · rcases ih h with h | h
        · exact Or.inl h
        · exact Or.inr (List.mem_cons_of_mem _ h)
    · rw [if_neg hc] at h
      rcases List.mem_cons.mp h with h | h
      · exact Or.inl h
      · exact Or.inr h

theorem mem_sortDesc (x : String × Int) (l : List (String × Int))
    (h : x ∈ sortDesc l) : x ∈ l := by
  rw [sortDesc] at h
  suffices hgen : ∀ (l2 : List (String × Int)) (acc : List (String × Int)),
      x ∈ l2.foldl (fun acc y => insertDesc y acc) acc → x ∈ acc ∨ x ∈ l2 by
    rcases hgen l [] h with h | h
    · simp at h
    · exact h
  intro l2
  induction l2 with
  | nil =>
    intro acc h2
    exact Or.inl h2
  | cons z rest ih =>
    intro acc h2
    simp only [List.foldl_cons] at h2
    rcases ih (insertDesc z acc) h2 with h3 | h3
    · rcases mem_insertDesc x z acc h3 with h4 | h4
      · exact Or.inr (h4 ▸ List.mem_cons_self _ _)
      · exact Or.inl h4
    · exact Or.inr (List.mem_cons_of_mem _ h3)

theorem accumFrom_mem (n : Int) (l : List (String × Int)) (sum0 : Int)
    (acc res : List String) (tot : Int)
    (h : accumFrom n l sum0 acc = some (res, tot)) :
    ∀ x ∈ res, x ∈ acc ∨ ∃ cap, (x, cap) ∈ l := by
  induction l generalizing sum0 acc with
  | nil => simp [accumFrom] at h
  | cons p rest ih =>
    obtain ⟨tid, cap⟩ := p
    rw [accumFrom] at h
    intro x hx
    by_cases htr : sum0 + cap ≥ n
    · rw [if_pos htr] at h
      cases h
      rcases List.mem_append.mp hx with hx | hx
      · exact Or.inl hx
      · simp only [List.mem_singleton] at hx
        subst hx
        exact Or.inr ⟨cap, List.mem_cons_self _ _⟩
    · rw [if_neg htr] at h
      rcases ih _ _ h x hx with hx2 | hx2
      · rcases List.mem_append.mp hx2 with hx3 | hx3
        · exact Or.inl hx3
        · simp only [List.mem_singleton] at hx3
          subst hx3
          exact Or.inr ⟨cap, List.mem_cons_self _ _⟩
      · obtain ⟨cap2, hc⟩ := hx2
        exact Or.inr ⟨cap2, List.mem_cons_of_mem _ hc⟩

theorem accumFrom_shape (n : Int) (l : List (String × Int)) (sum0 : Int)
    (acc res : List String) (tot : Int)
    (h : accumFrom n l sum0 acc = some (res, tot)) :
    ∃ pre, pre ≠ [] ∧ res = acc ++ pre := by
  induction l generalizing sum0 acc with
  | nil => simp [accumFrom] at h
  | cons p rest ih =>
    obtain ⟨tid, cap⟩ := p
    rw [accumFrom] at h
    by_cases htr : sum0 + cap ≥ n
    · rw [if_pos htr] at h
      cases h
      exact ⟨[tid], by simp, rfl⟩
    · rw [if_neg htr] at h
      obtain ⟨pre, hne, hres⟩ := ih _ _ h
      exact ⟨tid :: pre, by simp, by simp [hres]⟩

theorem tryStarts_mem (n : Int) (l : List (String × Int))
    (comps : List String) (tot : Int)
    (h : tryStarts n l = some (comps, tot)) :
    ∀ x ∈ comps, ∃ cap, (x, cap) ∈ l := by
  induction l with
  | nil => simp [tryStarts] at h
  | cons p rest ih =>
    rw [tryStarts] at h
    rcases ha : accumFrom n (p :: rest) 0 [] with _ | r
    · rw [ha] at h
      intro x hx
      obtain ⟨cap, hc⟩ := ih h x hx
      exact ⟨cap, List.mem_cons_of_mem _ hc⟩
    · rw [ha] at h
      obtain ⟨res, tot2⟩ := r
      cases h
      intro x hx
      rcases accumFrom_mem n _ 0 [] comps tot ha x hx with h2 | h2
      · simp at h2
      · exact h2

theorem tryStarts_two (n : Int) (l : List (String × Int))
    (hsmall : ∀ p ∈ l, p.2 < n) (comps : List String) (tot : Int)
    (h : tryStarts n l = some (comps, tot)) : 2 ≤ comps.length := by
  induction l with
  | nil => simp [tryStarts] at h
  | cons p rest ih =>
    obtain ⟨tid, cap⟩ := p
    rw [tryStarts] at h
    rcases ha : accumFrom n ((tid, cap) :: rest) 0 [] with _ | r
    · rw [ha] at h
      exact ih (fun q hq => hsmall q (List.mem_cons_of_mem _ hq)) h
    · rw [ha] at h
      obtain ⟨res, tot2⟩ := r
      cases h
      rw [accumFrom] at ha
      have hcap : cap < n := hsmall (tid, cap) (List.mem_cons_self _ _)
      rw [if_neg (by omega)] at ha
      obtain ⟨pre, hne, hres⟩ := accumFrom_shape n rest (0 + cap) [tid]
        comps tot ha
      have hlen : 0 < pre.length := List.length_pos.mpr hne
      rw [hres, List.length_append]
      simp only [List.length_singleton]
      omega

theorem searchRooms_sound (n : Int)
    (l : List (String × List (String × Int))) (room : String)
    (comps : List String) (tot : Int)
    (h : searchRooms n l = some (room, comps, tot)) :
    ∃ lst, (room, lst) ∈ l ∧ tryStarts n (sortDesc lst) = some (comps, tot) := by
  induction l with
  | nil => simp [searchRooms] at h
  | cons p rest ih =>
    obtain ⟨r0, lst0⟩ := p
    rw [searchRooms] at h
    rcases ht : tryStarts n (sortDesc lst0) with _ | r
    · rw [ht] at h
      obtain ⟨lst, hmem, h2⟩ := ih h
      exact ⟨lst, List.mem_cons_of_mem _ hmem, h2⟩
    · rw [ht] at h
      obtain ⟨c2, t2⟩ := r
      cases h
      exact ⟨lst0, List.mem_cons_self _ _, ht⟩

theorem joinPlus_hasPlus (a b : String) (rest : List String) :
    hasPlus (joinPlus (a :: b :: rest)) = true := by
  have h0 : Char.ofNat 43 ∈ ("+" : String).data := by decide
  show hasPlus (a ++ "+" ++ joinPlus (b :: rest)) = true
  unfold hasPlus
  simp only [decide_eq_true_eq, String.data_append]
  exact List.mem_append.mpr (Or.inl (List.mem_append.mpr (Or.inr h0)))

theorem hasPlus_of_two (comps : List String) (h : 2 ≤ comps.length) :
    hasPlus (joinPlus comps) = true := by
  rcases comps with _ | ⟨a, rest⟩
  · simp at h
  · rcases rest with _ | ⟨b, rest2⟩
    · simp at h
    · exact joinPlus_hasPlus a b rest2

theorem isFreeBase_parts (a : String) (b : TableInfo)
    (h : isFreeBase a b = true) :
    hasPlus a = false ∧ b.combined = false ∧ b.occupied = false := by
  simp only [isFreeBase, Bool.and_eq_true, Bool.not_eq_true'] at h
  exact ⟨h.1.1, h.1.2, h.2⟩

theorem lookup_of_contains {α β : Type} [DecidableEq α]
    (l : List (α × β)) (k : α) (h : containsA l k = true) :
    ∃ v, lookupA l k = some v := by
  rcases hl : lookupA l k with _ | v
  · simp [containsA, hl] at h
  · exact ⟨v, rfl⟩

/-- Invariant preservation by `find_best_table_for_group` (the only
operation that synthesizes combined tables). -/
theorem inv_find (s : TablePlanner) (n : Int) (g : Nat) (h : Inv s) :
    Inv (find_best_table_for_group s n g).1 := by
  rw [find_best_table_for_group]
  rcases h1 : findSingle s.tables n with _ | tid
  · rcases h2 : searchRooms n (groupEmptyByRoom s.tables) with _ | trip
    · exact h
    · obtain ⟨room, comps, total⟩ := trip
      obtain ⟨lst, hlstmem, htry⟩ := searchRooms_sound n _ room comps total h2
      have hbucket : ∀ x ∈ lst, ∃ info, lookupA s.tables x.1 = some info ∧
          isFreeBase x.1 info = true ∧ info.capacity = x.2 := by
        intro x hx
        refine groupEmptyByRoom_sound s.tables
          (fun _ e => ∃ info, lookupA s.tables e.1 = some info ∧
            isFreeBase e.1 info = true ∧ info.capacity = e.2) ?_ room lst
          hlstmem x hx
        intro p hp hf
        exact ⟨p.2, mem_lookupA _ _ _ h.ndT (by rwa [Prod.mk.eta]), hf, rfl⟩
      have hfree : ∀ c ∈ comps, ∃ info, lookupA s.tables c = some info ∧
          isFreeBase c info = true := by
        intro c hc
        obtain ⟨cap, hmem1⟩ := tryStarts_mem n _ comps total htry c hc
        obtain ⟨info, hlook, hfb, _⟩ := hbucket (c, cap)
          (mem_sortDesc _ _ hmem1)
        exact ⟨info, hlook, hfb⟩
      have hsmall : ∀ p ∈ sortDesc lst, p.2 < n := by
        intro p hp
        obtain ⟨info, hlook, hfb, hcap⟩ := hbucket p (mem_sortDesc _ _ hp)
        have := findSingle_none_small s.tables n h1 p.1 info
          (lookupA_mem _ _ _ hlook) hfb
        omega
      have hlen2 : 2 ≤ comps.length := tryStarts_two n _ hsmall comps total htry
      have hplusC : hasPlus (joinPlus comps) = true := hasPlus_of_two comps hlen2
      have hNoPlusComp : ∀ c ∈ comps, hasPlus c = false := by
        intro c hc
        obtain ⟨info, _, hfb⟩ := hfree c hc
        exact (isFreeBase_parts c info hfb).1
      have hcne : ∀ c ∈ comps, c ≠ joinPlus comps := by
        intro c hc
        exact hasPlus_ne c _ (hNoPlusComp c hc) hplusC
      have hcombT : ∀ b : TableInfo,
          (fun t => { t with combined := true, occupied := true })
            ((fun t => { t with combined := true, occupied := true }) b) =
          (fun t => { t with combined := true, occupied := true }) b := by
        intro b
        rfl
      show Inv { s with
        tables := setA (comps.foldl markCombined s.tables) (joinPlus comps)
          ⟨total, true, true, room, some comps⟩,
        combined_tables := setA s.combined_tables (joinPlus comps) comps,
        assignments := setA s.assignments (joinPlus comps) [] }
      have hT_self : lookupA (setA (comps.foldl markCombined s.tables)
          (joinPlus comps) ⟨total, true, true, room, some comps⟩)
          (joinPlus comps) = some ⟨total, true, true, room, some comps⟩ :=
        lookupA_setA_self _ _ _
      have hT_other : ∀ x, x ≠ joinPlus comps →
          lookupA (setA (comps.foldl markCombined s.tables) (joinPlus comps)
            ⟨total, true, true, room, some comps⟩) x =
          if x ∈ comps then (lookupA s.tables x).map
            (fun t => { t with combined := true, occupied := true })
          else lookupA s.tables x := by
        intro x hx
        rw [lookupA_setA_ne _ _ _ _ hx, foldl_markCombined_eq,
          lookupA_foldl_adjustA _ hcombT]
      have hcontT : ∀ x, x ≠ joinPlus comps →
          containsA (setA (comps.foldl markCombined s.tables) (joinPlus comps)
            ⟨total, true, true, room, some comps⟩) x =
          containsA s.tables x := by
        intro x hx
        rw [containsA_setA_ne _ _ _ _ hx, foldl_markCombined_eq,
          containsA_foldl_adjustA]
      constructor
      · apply ndKeys_setA
        unfold ndKeys
        rw [foldl_markCombined_eq, keys_foldl_adjustA]
        exact h.ndT
      · exact ndKeys_setA _ _ _ h.ndA
      · exact ndKeys_setA _ _ _ h.ndC
      · intro x hx
        by_cases hxc : x = joinPlus comps
        · subst hxc
          exact contains_of_lookup _ _ _ hT_self
        · rw [containsA_setA_ne _ _ _ _ hxc] at hx
          rw [hcontT x hxc]
          exact h.asgKeys x hx
      · intro x info hx hocc
        by_cases hxc : x = joinPlus comps
        · subst hxc
          rw [hT_self] at hx
          cases hx
          simp at hocc
        · rw [hT_other x hxc] at hx
          by_cases hxm : x ∈ comps
          · rw [if_pos hxm] at hx
            rcases hlk : lookupA s.tables x with _ | i0
            · rw [hlk] at hx
              cases hx
            · rw [hlk] at hx
              injection hx with hx
              rw [← hx] at hocc
              simp at hocc
          · rw [if_neg hxm] at hx
            rw [getAsg_setA_ne _ _ _ _ hxc]
            exact h.emptyFree x info hx hocc
      · intro x info hx hcomb
        by_cases hxc : x = joinPlus comps
        · subst hxc
          rw [hT_self] at hx
          cases hx
          simp at hcomb
        · rw [hT_other x hxc] at hx
          by_cases hxm : x ∈ comps
          · rw [if_pos hxm] at hx
            rcases hlk : lookupA s.tables x with _ | i0
            · rw [hlk] at hx
              cases hx
            · rw [hlk] at hx
              injection hx with hx
              rw [← hx] at hcomb
              simp at hcomb
          · rw [if_neg hxm] at hx
            rw [getAsg_setA_ne _ _ _ _ hxc]
            exact h.occIff x info hx hcomb
      · intro c hc
        by_cases hcc : c = joinPlus comps
        · subst hcc
          exact hplusC
        · rw [containsA_setA_ne _ _ _ _ hcc] at hc
          exact h.ctPlus c hc
      · intro c0 cs hlk c hc
        by_cases hc0 : c0 = joinPlus comps
        · subst hc0
          rw [lookupA_setA_self] at hlk
          cases hlk
          exact hNoPlusComp c hc
        · rw [lookupA_setA_ne _ _ _ _ hc0] at hlk
          exact h.compNoPlus c0 cs hlk c hc
      · intro c0 cs hlk hact c hc
        by_cases hc0 : c0 = joinPlus comps
        · subst hc0
          rw [lookupA_setA_self] at hlk
          cases hlk
          obtain ⟨info, hlook, hfb⟩ := hfree c hc
          rw [getAsg_setA_ne _ _ _ _ (hcne c hc)]
          exact h.emptyFree c info hlook (isFreeBase_parts c info hfb).2.2
        · rw [lookupA_setA_ne _ _ _ _ hc0] at hlk
          rw [hcontT c0 hc0] at hact
          have hcplus : hasPlus c = false := h.compNoPlus c0 cs hlk c hc
          rw [getAsg_setA_ne _ _ _ _ (hasPlus_ne c _ hcplus hplusC)]
          exact h.compEmpty c0 cs hlk hact c hc
      · intro c0 cs hlk hact c hc ci hci
        by_cases hc0 : c0 = joinPlus comps
        · subst hc0
          rw [lookupA_setA_self] at hlk
          cases hlk
          rw [hT_other c (hcne c hc), if_pos hc] at hci
          rcases hlk2 : lookupA s.tables c with _ | i0
          · rw [hlk2] at hci
            cases hci
          · rw [hlk2] at hci
            injection hci with hci
            rw [← hci]
        · rw [lookupA_setA_ne _ _ _ _ hc0] at hlk
          rw [hcontT c0 hc0] at hact
          have hcplus : hasPlus c = false := h.compNoPlus c0 cs hlk c hc
          rw [hT_other c (hasPlus_ne c _ hcplus hplusC)] at hci
          by_cases hcm : c ∈ comps
          · rw [if_pos hcm] at hci
            rcases hlk2 : lookupA s.tables c with _ | i0
            · rw [hlk2] at hci
              cases hci
            · rw [hlk2] at hci
              injection hci with hci
              rw [← hci]
          · rw [if_neg hcm] at hci
            exact h.compFlag c0 cs hlk hact c hc ci hci
      · intro c0 cs hlk hact c hc
        by_cases hc0 : c0 = joinPlus comps
        · subst hc0
          rw [lookupA_setA_self] at hlk
          cases hlk
          obtain ⟨info, hlook, _⟩ := hfree c hc
          rw [hcontT c (hcne c hc)]
          exact contains_of_lookup _ _ _ hlook
        · rw [lookupA_setA_ne _ _ _ _ hc0] at hlk
          rw [hcontT c0 hc0] at hact
          have hcplus : hasPlus c = false := h.compNoPlus c0 cs hlk c hc
          rw [hcontT c (hasPlus_ne c _ hcplus hplusC)]
          exact h.compPresent c0 cs hlk hact c hc
      · intro cid1 cs1 cid2 cs2 hlk1 hlk2 ha1 ha2 hne c hc
        by_cases h1c : cid1 = joinPlus comps
        · subst h1c
          rw [lookupA_setA_self] at hlk1
          cases hlk1
          have h2c : cid2 ≠ joinPlus comps := fun hh => hne hh.symm
          rw [lookupA_setA_ne _ _ _ _ h2c] at hlk2
          rw [hcontT cid2 h2c] at ha2
          intro hc2
          obtain ⟨info, hlook, hfb⟩ := hfree c hc
          have := h.compFlag cid2 cs2 hlk2 ha2 c hc2 info hlook
          rw [(isFreeBase_parts c info hfb).2.1] at this
          cases this
        · rw [lookupA_setA_ne _ _ _ _ h1c] at hlk1
          rw [hcontT cid1 h1c] at ha1
          by_cases h2c : cid2 = joinPlus comps
          · subst h2c
            rw [lookupA_setA_self] at hlk2
            cases hlk2
            intro hc2
            obtain ⟨info, hlook, hfb⟩ := hfree c hc2
            have := h.compFlag cid1 cs1 hlk1 ha1 c hc info hlook
            rw [(isFreeBase_parts c info hfb).2.1] at this
            cases this
          · rw [lookupA_setA_ne _ _ _ _ h2c] at hlk2
            rw [hcontT cid2 h2c] at ha2
            exact h.compDisj cid1 cs1 cid2 cs2 hlk1 hlk2 ha1 ha2 hne c hc
  · exact h

theorem seatCommit_contT (s : TablePlanner) (gid : Nat) (tid x : String)
    (g : GroupInfo) :
    containsA (seatCommit s gid tid g).tables x = containsA s.tables x := by
  simp [seatCommit, containsA_adjustA]

/-- Invariant preservation by the common seating mutation, provided the
target table is registered and is not a component of an active
combination. -/
theorem inv_seatCommit (s : TablePlanner) (gid : Nat) (tid : String)
    (info : TableInfo) (g : GroupInfo) (h : Inv s)
    (ht : lookupA s.tables tid = some info)
    (hnc : ∀ cid comps, lookupA s.combined_tables cid = some comps →
      containsA s.tables cid = true → tid ∉ comps) :
    Inv (seatCommit s gid tid g) := by
  constructor
  · show ndKeys (adjustA (fun t => { t with occupied := true }) s.tables tid)
    exact ndKeys_adjustA _ _ _ h.ndT
  · show ndKeys (setA s.assignments tid (getAsg s.assignments tid ++ [gid]))
    exact ndKeys_setA _ _ _ h.ndA
  · exact h.ndC
  · intro x hx
    rw [seatCommit_contT]
    by_cases hxt : x = tid
    · subst hxt
      exact contains_of_lookup _ _ _ ht
    · revert hx
      show containsA (setA s.assignments tid
        (getAsg s.assignments tid ++ [gid])) x = true → _
      rw [containsA_setA_ne _ _ _ _ hxt]
      exact h.asgKeys x
  · intro x info2 hx hocc
    by_cases hxt : x = tid
    · subst hxt
      rw [seatCommit_tables_self, ht] at hx
      injection hx with hx
      rw [← hx] at hocc
      simp at hocc
    · rw [seatCommit_tables_ne _ _ _ _ _ hxt] at hx
      rw [seatCommit_asg_ne _ _ _ _ _ hxt]
      exact h.emptyFree x info2 hx hocc
  · intro x info2 hx hcomb
    by_cases hxt : x = tid
    · subst hxt
      rw [seatCommit_tables_self, ht] at hx
      injection hx with hx
      rw [← hx] at hcomb ⊢
      rw [seatCommit_asg_self]
      simp
    · rw [seatCommit_tables_ne _ _ _ _ _ hxt] at hx
      rw [seatCommit_asg_ne _ _ _ _ _ hxt]
      exact h.occIff x info2 hx hcomb
  · exact h.ctPlus
  · exact h.compNoPlus
  · intro c0 cs hlk hact c hc
    rw [seatCommit_contT] at hact
    have htid : tid ∉ cs := hnc c0 cs hlk hact
    have hct : c ≠ tid := fun hh => htid (hh ▸ hc)
    rw [seatCommit_asg_ne _ _ _ _ _ hct]
    exact h.compEmpty c0 cs hlk hact c hc
  · intro c0 cs hlk hact c hc ci hci
    rw [seatCommit_contT] at hact
    have htid : tid ∉ cs := hnc c0 cs hlk hact
    have hct : c ≠ tid := fun hh => htid (hh ▸ hc)
    rw [seatCommit_tables_ne _ _ _ _ _ hct] at hci
    exact h.compFlag c0 cs hlk hact c hc ci hci
  · intro c0 cs hlk hact c hc
    rw [seatCommit_contT] at hact
    rw [seatCommit_contT]
    exact h.compPresent c0 cs hlk hact c hc
  · intro cid1 cs1 cid2 cs2 hlk1 hlk2 ha1 ha2 hne c hc
    rw [seatCommit_contT] at ha1 ha2
    exact h.compDisj cid1 cs1 cid2 cs2 hlk1 hlk2 ha1 ha2 hne c hc

/-- Invariant preservation by `seat_guests` when the target is not a
component of an active combination. -/
theorem inv_seat (s : TablePlanner) (gid : Nat) (tid : String)
    (hgood : isActiveComponent s tid = false) (h : Inv s) :
    Inv (seat_guests s gid tid).1 := by
  have hnc : ∀ cid comps, lookupA s.combined_tables cid = some comps →
      containsA s.tables cid = true → tid ∉ comps := by
    intro cid comps hlk hact hmem
    have hmem2 := lookupA_mem _ _ _ hlk
    have hany : s.combined_tables.any (fun p => containsA s.tables p.1 &&
        decide (tid ∈ p.2)) = true :=
      List.any_eq_true.mpr ⟨(cid, comps), hmem2, by simp [hact, hmem]⟩
    rw [isActiveComponent, hany] at hgood
    cases hgood
  rcases ht : lookupA s.tables tid with _ | info
  · rw [seat_guests_table_none s gid tid ht]
    exact h
  · rcases hg2 : lookupA s.groups gid with _ | g
    · rw [seat_guests_group_none s gid tid info ht hg2]
      exact h
    · by_cases hbig : g.size > info.capacity
      · rw [seat_guests_too_large s gid tid info g ht hg2 hbig]
        exact h
      · by_cases hocc : info.occupied = true
        · by_cases hover : currentOccupancy s tid + g.size > info.capacity
          · rw [seat_guests_no_space s gid tid info g ht hg2 hbig hocc hover]
            show Inv { s with assignments := touchA s.assignments tid }
            rw [touchA_id_of_no_space s tid info.capacity g.size hbig hover]
            exact h
          · rw [seat_guests_success_occupied s gid tid info g ht hg2 hbig
              hocc hover]
            exact inv_seatCommit s gid tid info g h ht hnc
        · have hocc2 : info.occupied = false := by
            revert hocc
            cases info.occupied <;> simp
          rw [seat_guests_success_free s gid tid info g ht hg2 hbig hocc2]
          exact inv_seatCommit s gid tid info g h ht hnc

theorem findSingle_some (tbls : List (String × TableInfo)) (n : Int)
    (tid : String) (hnd : ndKeys tbls) (h : findSingle tbls n = some tid) :
    ∃ info, lookupA tbls tid = some info ∧ isFreeBase tid info = true ∧
      n ≤ info.capacity := by
  induction tbls with
  | nil => simp [findSingle] at h
  | cons p rest ih =>
    obtain ⟨x, y⟩ := p
    simp only [ndKeys, List.map_cons, List.nodup_cons] at hnd
    by_cases hf : isFreeBase x y = true
    · rw [findSingle, if_pos hf] at h
      by_cases hn : n ≤ y.capacity
      · rw [if_pos hn] at h
        injection h with h
        subst h
        exact ⟨y, by simp [lookupA], hf, hn⟩
      · rw [if_neg hn] at h
        obtain ⟨info, hlook, hfb, hcap⟩ := ih hnd.2 h
        by_cases hx : x = tid
        · subst hx
          exact absurd ((containsA_iff_mem_keys rest x).mp
            (contains_of_lookup _ _ _ hlook)) hnd.1
        · exact ⟨info, by simp [lookupA, hx, hlook], hfb, hcap⟩
    · rw [findSingle, if_neg hf] at h
      obtain ⟨info, hlook, hfb, hcap⟩ := ih hnd.2 h
      by_cases hx : x = tid
      · subst hx
        exact absurd ((containsA_iff_mem_keys rest x).mp
          (contains_of_lookup _ _ _ hlook)) hnd.1
      · exact ⟨info, by simp [lookupA, hx, hlook], hfb, hcap⟩

/-- Whenever `find_best_table_for_group` returns a table id, that id is
registered in the result state and is not a component of any combination
active there — so seating into it is invariant-safe. -/
theorem find_target_safe (s : TablePlanner) (n : Int) (g : Nat) (h : Inv s)
    (tid : String) (hres : (find_best_table_for_group s n g).2.1 = some tid) :
    (∃ info, lookupA (find_best_table_for_group s n g).1.tables tid =
      some info) ∧
    (∀ cid comps,
      lookupA (find_best_table_for_group s n g).1.combined_tables cid =
        some comps →
      containsA (find_best_table_for_group s n g).1.tables cid = true →
      tid ∉ comps) := by
  revert hres
  rw [find_best_table_for_group]
  rcases h1 : findSingle s.tables n with _ | tid2
  · rcases h2 : searchRooms n (groupEmptyByRoom s.tables) with _ | trip
    · intro hres
      cases hres
    · obtain ⟨room, comps, total⟩ := trip
      intro hres
      have htid : tid = joinPlus comps := by
        cases hres
        rfl
      subst htid
      obtain ⟨lst, hlstmem, htry⟩ := searchRooms_sound n _ room comps total h2
      have hbucket : ∀ x ∈ lst, ∃ info, lookupA s.tables x.1 = some info ∧
          isFreeBase x.1 info = true ∧ info.capacity = x.2 := by
        intro x hx
        refine groupEmptyByRoom_sound s.tables
          (fun _ e => ∃ info, lookupA s.tables e.1 = some info ∧
            isFreeBase e.1 info = true ∧ info.capacity = e.2) ?_ room lst
          hlstmem x hx
        intro p hp hf
        exact ⟨p.2, mem_lookupA _ _ _ h.ndT (by rwa [Prod.mk.eta]), hf, rfl⟩
      have hsmall : ∀ p ∈ sortDesc lst, p.2 < n := by
        intro p hp
        obtain ⟨info, hlook, hfb, hcap⟩ := hbucket p (mem_sortDesc _ _ hp)
        have := findSingle_none_small s.tables n h1 p.1 info
          (lookupA_mem _ _ _ hlook) hfb
        omega
      have hplusC : hasPlus (joinPlus comps) = true :=
        hasPlus_of_two comps (tryStarts_two n _ hsmall comps total htry)
      constructor
      · exact ⟨⟨total, true, true, room, some comps⟩, lookupA_setA_self _ _ _⟩
      · intro cid cs hlk hact hmem
        by_cases hcc : cid = joinPlus comps
        · subst hcc
          rw [lookupA_setA_self] at hlk
          cases hlk
          obtain ⟨cap, hmem1⟩ := tryStarts_mem n _ comps total htry _ hmem
          obtain ⟨info, _, hfb, _⟩ := hbucket _ (mem_sortDesc _ _ hmem1)
          rw [(isFreeBase_parts _ info hfb).1] at hplusC
          cases hplusC
        · rw [lookupA_setA_ne _ _ _ _ hcc] at hlk
          have := h.compNoPlus cid cs hlk _ hmem
          rw [this] at hplusC
          cases hplusC
  · intro hres
    have htid : tid2 = tid := by
      cases hres
      rfl
    subst htid
    obtain ⟨info, hlook, hfb, _⟩ := findSingle_some s.tables n tid2 h.ndT h1
    refine ⟨⟨info, hlook⟩, ?_⟩
    intro cid cs hlk hact hmem
    have := h.compFlag cid cs hlk hact tid2 hmem info hlook
    rw [(isFreeBase_parts _ info hfb).2.1] at this
    cases this

theorem inv_messages (s : TablePlanner) (m : List String) (h : Inv s) :
    Inv { s with messages := m } :=
  inv_core_eq s _ rfl rfl rfl h

theorem inv_optimizeStep (s : TablePlanner) (p : Nat × GroupInfo) (h : Inv s) :
    Inv (optimizeStep s p) := by
  rw [optimizeStep]
  by_cases hg : containsA s.groups p.1 = true
  · rw [if_pos hg]
    rcases hfind : find_best_table_for_group s p.2.size p.1 with
      ⟨sp, tido, isC, compso⟩
    have hInvp : Inv sp := by
      have := inv_find s p.2.size p.1 h
      rw [hfind] at this
      exact this
    rcases tido with _ | tid
    · exact hInvp
    · show Inv (if tid = "" then sp else
        (let s2 := seatCommit sp p.1 tid { size := p.2.size, name := p.2.name }
         if isC then
           { s2 with messages := s2.messages ++
               [combinedMessage (compso.getD [])
                 (((lookupA s2.tables tid).map TableInfo.room).getD "")
                 p.2.name] }
         else s2))
      by_cases htid : tid = ""
      · rw [if_pos htid]
        exact hInvp
      · rw [if_neg htid]
        have hsafe := find_target_safe s p.2.size p.1 h tid
          (by rw [hfind])
        rw [hfind] at hsafe
        obtain ⟨⟨info, hlook⟩, hnc⟩ := hsafe
        have hcommit : Inv (seatCommit sp p.1 tid
            { size := p.2.size, name := p.2.name }) :=
          inv_seatCommit sp p.1 tid info _ hInvp hlook hnc
        rcases isC with _ | _
        · exact hcommit
        · exact inv_messages _ _ hcommit
  · rw [if_neg (by simp [hg])]
    exact h

theorem inv_optimize (s : TablePlanner) (h : Inv s) :
    Inv (optimize_seating s) := by
  rw [optimize_seating]
  generalize sortGroupsDesc s.groups = l
  induction l generalizing s with
  | nil => exact h
  | cons p rest ih =>
    simp only [List.foldl_cons]
    exact ih _ (inv_optimizeStep s p h)

theorem eraseA_of_not_contains {α β : Type} [DecidableEq α]
    (l : List (α × β)) (k : α) (h : containsA l k = false) :
    eraseA l k = l := by
  induction l with
  | nil => rfl
  | cons p rest ih =>
    obtain ⟨a, b⟩ := p
    simp only [containsA, lookupA] at h
    by_cases hk : a = k
    · simp [hk] at h
    · simp only [if_neg hk] at h
      simp only [eraseA, if_neg hk]
      rw [ih h]

theorem containsA_eraseA_ne {α β : Type} [DecidableEq α]
    (l : List (α × β)) (k x : α) (h : x ≠ k) :
    containsA (eraseA l k) x = containsA l x := by
  simp [containsA, lookupA_eraseA_ne _ _ _ h]

theorem not_active_comp (s : TablePlanner) (t : String)
    (hgood : isActiveComponent s t = false) :
    ∀ cid comps, lookupA s.combined_tables cid = some comps →
      containsA s.tables cid = true → t ∉ comps := by
  intro cid comps hlk hact hmem
  have hmem2 := lookupA_mem _ _ _ hlk
  have hany : s.combined_tables.any (fun p => containsA s.tables p.1 &&
      decide (t ∈ p.2)) = true :=
    List.any_eq_true.mpr ⟨(cid, comps), hmem2, by simp [hact, hmem]⟩
  rw [isActiveComponent, hany] at hgood
  cases hgood

theorem requeueOne_fields (s : TablePlanner) (g : Nat) :
    (requeueOne s g).tables = s.tables ∧
    (requeueOne s g).assignments = s.assignments ∧
    (requeueOne s g).combined_tables = s.combined_tables := by
  rw [requeueOne]
  rcases lookupA s.seated_groups g with _ | d
  · exact ⟨rfl, rfl, rfl⟩
  · exact ⟨rfl, rfl, rfl⟩

theorem requeueAll_fields (gids : List Nat) (s : TablePlanner) :
    (requeueAll s gids).tables = s.tables ∧
    (requeueAll s gids).assignments = s.assignments ∧
    (requeueAll s gids).combined_tables = s.combined_tables := by
  induction gids generalizing s with
  | nil => exact ⟨rfl, rfl, rfl⟩
  | cons g rest ih =>
    obtain ⟨h1, h2, h3⟩ := requeueOne_fields s g
    obtain ⟨h4, h5, h6⟩ := ih (requeueOne s g)
    exact ⟨h4.trans h1, h5.trans h2, h6.trans h3⟩

theorem inv_remove_core (s : TablePlanner) (t : String)
    (hnc : ∀ cid comps, lookupA s.combined_tables cid = some comps →
      containsA s.tables cid = true → t ∉ comps)
    (h : Inv s) (sp : TablePlanner)
    (hT : sp.tables = eraseA s.tables t)
    (hA : sp.assignments = eraseA s.assignments t)
    (hC : sp.combined_tables = s.combined_tables) : Inv sp := by
  constructor
  all_goals simp only [hT, hA, hC]
  · exact ndKeys_eraseA _ _ h.ndT
  · exact ndKeys_eraseA _ _ h.ndA
  · exact h.ndC
  · intro x hx
    by_cases hxt : x = t
    · subst hxt
      rw [containsA_eraseA_self _ _ h.ndA] at hx
      cases hx
    · rw [containsA_eraseA_ne _ _ _ hxt] at hx
      rw [containsA_eraseA_ne _ _ _ hxt]
      exact h.asgKeys x hx
  · intro x info hx hocc
    by_cases hxt : x = t
    · subst hxt
      rw [lookupA_eraseA_self _ _ h.ndT] at hx
      cases hx
    · rw [lookupA_eraseA_ne _ _ _ hxt] at hx
      rw [getAsg_eraseA_ne _ _ _ hxt]
      exact h.emptyFree x info hx hocc
  · intro x info hx hcomb
    by_cases hxt : x = t
    · subst hxt
      rw [lookupA_eraseA_self _ _ h.ndT] at hx
      cases hx
    · rw [lookupA_eraseA_ne _ _ _ hxt] at hx
      rw [getAsg_eraseA_ne _ _ _ hxt]
      exact h.occIff x info hx hcomb
  · exact h.ctPlus
  · exact h.compNoPlus
  · intro c0 cs hlk hact c hc
    by_cases hc0 : c0 = t
    · subst hc0
      rw [containsA_eraseA_self _ _ h.ndT] at hact
      cases hact
    · rw [containsA_eraseA_ne _ _ _ hc0] at hact
      have hct : c ≠ t := fun hh => hnc c0 cs hlk hact (hh ▸ hc)
      rw [getAsg_eraseA_ne _ _ _ hct]
      exact h.compEmpty c0 cs hlk hact c hc
  · intro c0 cs hlk hact c hc ci hci
    by_cases hc0 : c0 = t
    · subst hc0
      rw [containsA_eraseA_self _ _ h.ndT] at hact
      cases hact
    · rw [containsA_eraseA_ne _ _ _ hc0] at hact
      have hct : c ≠ t := fun hh => hnc c0 cs hlk hact (hh ▸ hc)
      rw [lookupA_eraseA_ne _ _ _ hct] at hci
      exact h.compFlag c0 cs hlk hact c hc ci hci
  · intro c0 cs hlk hact c hc
    by_cases hc0 : c0 = t
    · subst hc0
      rw [containsA_eraseA_self _ _ h.ndT] at hact
      cases hact
    · rw [containsA_eraseA_ne _ _ _ hc0] at hact
      have hct : c ≠ t := fun hh => hnc c0 cs hlk hact (hh ▸ hc)
      rw [containsA_eraseA_ne _ _ _ hct]
      exact h.compPresent c0 cs hlk hact c hc
  · intro cid1 cs1 cid2 cs2 hlk1 hlk2 ha1 ha2 hne c hc
    by_cases h1t : cid1 = t
    · subst h1t
      rw [containsA_eraseA_self _ _ h.ndT] at ha1
      cases ha1
    · by_cases h2t : cid2 = t
      · subst h2t
        rw [containsA_eraseA_self _ _ h.ndT] at ha2
        cases ha2
      · rw [containsA_eraseA_ne _ _ _ h1t] at ha1
        rw [containsA_eraseA_ne _ _ _ h2t] at ha2
        exact h.compDisj cid1 cs1 cid2 cs2 hlk1 hlk2 ha1 ha2 hne c hc

/-- Invariant preservation by `remove_table` when the removed table is not
a component of an active combination. -/
theorem inv_remove (s : TablePlanner) (t : String)
    (hgood : isActiveComponent s t = false) (h : Inv s) :
    Inv (remove_table s t) := by
  have hnc := not_active_comp s t hgood
  rw [remove_table]
  by_cases hc : containsA s.tables t = true
  · rw [if_pos hc]
    by_cases ha : containsA s.assignments t = true
    · rw [if_pos ha]
      obtain ⟨hT, hA, hC⟩ := requeueAll_fields
        (getAsg s.assignments t)
        { s with tables := eraseA s.tables t }
      refine inv_remove_core s t hnc h _ ?_ ?_ ?_
      · exact hT
      · show eraseA (requeueAll { s with tables := eraseA s.tables t }
          (getAsg s.assignments t)).assignments t = eraseA s.assignments t
        rw [hA]
      · exact hC
  -- with no assignment entry the erase is a no-op, so the same core applies
    · rw [if_neg ha]
      have ha2 : containsA s.assignments t = false := by
        revert ha
        cases containsA s.assignments t <;> simp
      refine inv_remove_core s t hnc h _ rfl ?_ rfl
      · show s.assignments = eraseA s.assignments t
        rw [eraseA_of_not_contains _ _ ha2]
  · rw [if_neg hc]
    exact h

theorem clearIdem : ∀ b : TableInfo,
    (fun t => { t with occupied := false, combined := false })
      ((fun t => { t with occupied := false, combined := false }) b) =
    (fun t => { t with occupied := false, combined := false }) b :=
  fun _ => rfl

theorem inv_mark_nonempty_state (s : TablePlanner) (tid : String) (gid : Nat)
    (lstp : List Nat) (hin : containsA s.assignments tid = true)
    (hmem : gid ∈ getAsg s.assignments tid) (h : Inv s) (sp : TablePlanner)
    (hT : sp.tables = s.tables)
    (hA : sp.assignments = setA s.assignments tid lstp)
    (hC : sp.combined_tables = s.combined_tables)
    (hsub : ∀ x ∈ lstp, x ∈ getAsg s.assignments tid)
    (hne : lstp ≠ []) : Inv sp := by
  have hmm : getAsg s.assignments tid ≠ [] := by
    intro hnil
    rw [hnil] at hmem
    cases hmem
  constructor
  all_goals simp only [hT, hA, hC]
  · exact h.ndT
  · exact ndKeys_setA _ _ _ h.ndA
  · exact h.ndC
  · intro x hx
    by_cases hxt : x = tid
    · subst hxt
      exact h.asgKeys x hin
    · rw [containsA_setA_ne _ _ _ _ hxt] at hx
      exact h.asgKeys x hx
  · intro x info hx hocc
    by_cases hxt : x = tid
    · subst hxt
      exact absurd (h.emptyFree x info hx hocc) hmm
    · rw [getAsg_setA_ne _ _ _ _ hxt]
      exact h.emptyFree x info hx hocc
  · intro x info hx hcomb
    by_cases hxt : x = tid
    · subst hxt
      rw [getAsg_setA_self]
      have := (h.occIff x info hx hcomb).mpr hmm
      simp [this, hne]
    · rw [getAsg_setA_ne _ _ _ _ hxt]
      exact h.occIff x info hx hcomb
  · exact h.ctPlus
  · exact h.compNoPlus
  · intro c0 cs hlk hact c hc
    by_cases hct : c = tid
    · subst hct
      exact absurd (h.compEmpty c0 cs hlk hact c hc) hmm
    · rw [getAsg_setA_ne _ _ _ _ hct]
      exact h.compEmpty c0 cs hlk hact c hc
  · exact h.compFlag
  · exact h.compPresent
  · exact h.compDisj

theorem inv_mark_empty_state (s : TablePlanner) (tid : String) (gid : Nat)
    (hin : containsA s.assignments tid = true)
    (hmem : gid ∈ getAsg s.assignments tid) (h : Inv s) (sp : TablePlanner)
    (hT : sp.tables =
      adjustA (fun t => { t with occupied := false }) s.tables tid)
    (hA : sp.assignments = setA s.assignments tid [])
    (hC : sp.combined_tables = s.combined_tables) : Inv sp := by
  have hmm : getAsg s.assignments tid ≠ [] := by
    intro hnil
    rw [hnil] at hmem
    cases hmem
  constructor
  all_goals simp only [hT, hA, hC]
  · exact ndKeys_adjustA _ _ _ h.ndT
  · exact ndKeys_setA _ _ _ h.ndA
  · exact h.ndC
  · intro x hx
    rw [containsA_adjustA]
    by_cases hxt : x = tid
    · subst hxt
      exact h.asgKeys x hin
    · rw [containsA_setA_ne _ _ _ _ hxt] at hx
      exact h.asgKeys x hx
  · intro x info hx hocc
    by_cases hxt : x = tid
    · subst hxt
      rw [getAsg_setA_self]
    · rw [lookupA_adjustA_ne _ _ _ _ hxt] at hx
      rw [getAsg_setA_ne _ _ _ _ hxt]
      exact h.emptyFree x info hx hocc
  · intro x info hx hcomb
    by_cases hxt : x = tid
    · subst hxt
      rw [lookupA_adjustA_self] at hx
      rcases hlk : lookupA s.tables x with _ | i0
      · rw [hlk] at hx
        cases hx
      · rw [hlk] at hx
        injection hx with hx
        rw [getAsg_setA_self]
        rw [← hx]
        simp
    · rw [lookupA_adjustA_ne _ _ _ _ hxt] at hx
      rw [getAsg_setA_ne _ _ _ _ hxt]
      exact h.occIff x info hx hcomb
  · exact h.ctPlus
  · exact h.compNoPlus
  · intro c0 cs hlk hact c hc
    rw [containsA_adjustA] at hact
    by_cases hct : c = tid
    · subst hct
      exact absurd (h.compEmpty c0 cs hlk hact c hc) hmm
    · rw [getAsg_setA_ne _ _ _ _ hct]
      exact h.compEmpty c0 cs hlk hact c hc
  · intro c0 cs hlk hact c hc ci hci
    rw [containsA_adjustA] at hact
    by_cases hct : c = tid
    · subst hct
      exact absurd (h.compEmpty c0 cs hlk hact c hc) hmm
    · rw [lookupA_adjustA_ne _ _ _ _ hct] at hci
      exact h.compFlag c0 cs hlk hact c hc ci hci
  · intro c0 cs hlk hact c hc
    rw [containsA_adjustA] at hact
    rw [containsA_adjustA]
    exact h.compPresent c0 cs hlk hact c hc
  · intro cid1 cs1 cid2 cs2 hlk1 hlk2 ha1 ha2 hne2 c hc
    rw [containsA_adjustA] at ha1 ha2
    exact h.compDisj cid1 cs1 cid2 cs2 hlk1 hlk2 ha1 ha2 hne2 c hc

theorem inv_mark_teardown_state (s : TablePlanner) (tid : String) (gid : Nat)
    (comps : List String) (hin : containsA s.assignments tid = true)
    (hmem : gid ∈ getAsg s.assignments tid) (hplus : hasPlus tid = true)
    (hct : lookupA s.combined_tables tid = some comps)
    (h : Inv s) (sp : TablePlanner)
    (hT : sp.tables = eraseA (comps.foldl clearComp
      (adjustA (fun t => { t with occupied := false }) s.tables tid)) tid)
    (hA : sp.assignments = eraseA (setA s.assignments tid []) tid)
    (hC : sp.combined_tables = eraseA s.combined_tables tid) : Inv sp := by
  have hact : containsA s.tables tid = true := h.asgKeys tid hin
  have hcE : ∀ c ∈ comps, getAsg s.assignments c = [] :=
    h.compEmpty tid comps hct hact
  have hcP : ∀ c ∈ comps, hasPlus c = false := h.compNoPlus tid comps hct
  have hcne : ∀ c ∈ comps, c ≠ tid := fun c hc =>
    hasPlus_ne c tid (hcP c hc) hplus
  have ndfold : ndKeys (comps.foldl clearComp
      (adjustA (fun t => { t with occupied := false }) s.tables tid)) := by
    unfold ndKeys
    rw [foldl_clearComp_eq, keys_foldl_adjustA, keys_adjustA]
    exact h.ndT
  have hTlook : ∀ x, x ≠ tid →
      lookupA (eraseA (comps.foldl clearComp
        (adjustA (fun t => { t with occupied := false }) s.tables tid)) tid) x =
      if x ∈ comps then (lookupA s.tables x).map
        (fun t => { t with occupied := false, combined := false })
      else lookupA s.tables x := by
    intro x hx
    rw [lookupA_eraseA_ne _ _ _ hx, foldl_clearComp_eq,
      lookupA_foldl_adjustA _ clearIdem, lookupA_adjustA_ne _ _ _ _ hx]
  have hContT : ∀ x, x ≠ tid →
      containsA (eraseA (comps.foldl clearComp
        (adjustA (fun t => { t with occupied := false }) s.tables tid)) tid) x =
      containsA s.tables x := by
    intro x hx
    rw [containsA_eraseA_ne _ _ _ hx, foldl_clearComp_eq,
      containsA_foldl_adjustA, containsA_adjustA]
  have hAx : ∀ x, x ≠ tid →
      getAsg (eraseA (setA s.assignments tid []) tid) x =
      getAsg s.assignments x := by
    intro x hx
    rw [getAsg_eraseA_ne _ _ _ hx, getAsg_setA_ne _ _ _ _ hx]
  constructor
  all_goals simp only [hT, hA, hC]
  · exact ndKeys_eraseA _ _ ndfold
  · exact ndKeys_eraseA _ _ (ndKeys_setA _ _ _ h.ndA)
  · exact ndKeys_eraseA _ _ h.ndC
  · intro x hx
    by_cases hxt : x = tid
    · subst hxt
      rw [containsA_eraseA_self _ _ (ndKeys_setA _ _ _ h.ndA)] at hx
      cases hx
    · rw [containsA_eraseA_ne _ _ _ hxt, containsA_setA_ne _ _ _ _ hxt] at hx
      rw [hContT x hxt]
      exact h.asgKeys x hx
  · intro x info hx hocc
    by_cases hxt : x = tid
    · subst hxt
      rw [lookupA_eraseA_self _ _ ndfold] at hx
      cases hx
    · rw [hTlook x hxt] at hx
      rw [hAx x hxt]
      by_cases hxm : x ∈ comps
      · exact hcE x hxm
      · rw [if_neg hxm] at hx
        exact h.emptyFree x info hx hocc
  · intro x info hx hcomb
    by_cases hxt : x = tid
    · subst hxt
      rw [lookupA_eraseA_self _ _ ndfold] at hx
      cases hx
    · rw [hTlook x hxt] at hx
      rw [hAx x hxt]
      by_cases hxm : x ∈ comps
      · rw [if_pos hxm] at hx
        rcases hlk : lookupA s.tables x with _ | i0
        · rw [hlk] at hx
          cases hx
        · rw [hlk] at hx
          injection hx with hx
          rw [← hx]
          simp [hcE x hxm]
      · rw [if_neg hxm] at hx
        exact h.occIff x info hx hcomb
  · intro c hcc
    by_cases hcc2 : c = tid
    · subst hcc2
      rw [containsA_eraseA_self _ _ h.ndC] at hcc
      cases hcc
    · rw [containsA_eraseA_ne _ _ _ hcc2] at hcc
      exact h.ctPlus c hcc
  · intro c0 cs hlk c hc
    by_cases hc0 : c0 = tid
    · subst hc0
      rw [lookupA_eraseA_self _ _ h.ndC] at hlk
      cases hlk
    · rw [lookupA_eraseA_ne _ _ _ hc0] at hlk
      exact h.compNoPlus c0 cs hlk c hc
  · intro c0 cs hlk hact2 c hc
    by_cases hc0 : c0 = tid
    · subst hc0
      rw [lookupA_eraseA_self _ _ h.ndC] at hlk
      cases hlk
    · rw [lookupA_eraseA_ne _ _ _ hc0] at hlk
      rw [hContT c0 hc0] at hact2
      have hcnet : c ≠ tid :=
        hasPlus_ne c tid (h.compNoPlus c0 cs hlk c hc) hplus
      rw [hAx c hcnet]
      exact h.compEmpty c0 cs hlk hact2 c hc
  · intro c0 cs hlk hact2 c hc ci hci
    by_cases hc0 : c0 = tid
    · subst hc0
      rw [lookupA_eraseA_self _ _ h.ndC] at hlk
      cases hlk
    · rw [lookupA_eraseA_ne _ _ _ hc0] at hlk
      rw [hContT c0 hc0] at hact2
      have hcnet : c ≠ tid :=
        hasPlus_ne c tid (h.compNoPlus c0 cs hlk c hc) hplus
      rw [hTlook c hcnet] at hci
      by_cases hcm : c ∈ comps
      · exact absurd hc
          (h.compDisj tid comps c0 cs hct hlk hact hact2
            (fun hh => hc0 hh.symm) c hcm)
      · rw [if_neg hcm] at hci
        exact h.compFlag c0 cs hlk hact2 c hc ci hci
  · intro c0 cs hlk hact2 c hc
    by_cases hc0 : c0 = tid
    · subst hc0
      rw [lookupA_eraseA_self _ _ h.ndC] at hlk
      cases hlk
    · rw [lookupA_eraseA_ne _ _ _ hc0] at hlk
      rw [hContT c0 hc0] at hact2
      have hcnet : c ≠ tid :=
        hasPlus_ne c tid (h.compNoPlus c0 cs hlk c hc) hplus
      rw [hContT c hcnet]
      exact h.compPresent c0 cs hlk hact2 c hc
  · intro cid1 cs1 cid2 cs2 hlk1 hlk2 ha1 ha2 hne2 c hc
    by_cases h1t : cid1 = tid
    · subst h1t
      rw [lookupA_eraseA_self _ _ h.ndC] at hlk1
      cases hlk1
    · by_cases h2t : cid2 = tid
      · subst h2t
        rw [lookupA_eraseA_self _ _ h.ndC] at hlk2
        cases hlk2
      · rw [lookupA_eraseA_ne _ _ _ h1t] at hlk1
        rw [lookupA_eraseA_ne _ _ _ h2t] at hlk2
        rw [hContT cid1 h1t] at ha1
        rw [hContT cid2 h2t] at ha2
        exact h.compDisj cid1 cs1 cid2 cs2 hlk1 hlk2 ha1 ha2 hne2 c hc

/-- Invariant preservation by `mark_group_left` (release). -/
theorem inv_mark (s : TablePlanner) (gid : Nat) (h : Inv s) :
    Inv (mark_group_left s gid).1 := by
  rcases hd : lookupA s.seated_groups gid with _ | d
  · rw [mark_group_left_not_seated s gid hd]
    exact h
  · by_cases hguard : containsA s.assignments d.table = true ∧
        gid ∈ getAsg s.assignments d.table
    · obtain ⟨hin, hmem⟩ := hguard
      by_cases hemp : removeFirst (getAsg s.assignments d.table) gid = []
      · by_cases htd : hasPlus d.table = true ∧
            containsA s.combined_tables d.table = true
        · obtain ⟨hplus, hctc⟩ := htd
          obtain ⟨comps, hct⟩ := lookup_of_contains _ _ hctc
          rw [mark_group_left_teardown s gid d comps hd hin hmem hemp hplus
            hct]
          refine inv_mark_teardown_state s d.table gid comps hin hmem hplus
            hct h _ rfl ?_ rfl
          show eraseA (setA s.assignments d.table
            (removeFirst (getAsg s.assignments d.table) gid)) d.table = _
          rw [hemp]
        · rw [mark_group_left_empty s gid d hd hin hmem hemp htd]
          refine inv_mark_empty_state s d.table gid hin hmem h _ rfl ?_ rfl
          show setA s.assignments d.table
            (removeFirst (getAsg s.assignments d.table) gid) = _
          rw [hemp]
      · rw [mark_group_left_nonempty s gid d hd hin hmem hemp]
        exact inv_mark_nonempty_state s d.table gid _ hin hmem h _ rfl rfl rfl
          (fun x hx => mem_removeFirst _ _ _ hx) hemp
    · rw [mark_group_left_skip s gid d hd hguard]
      exact inv_core_eq s _ rfl rfl rfl h

/-- One well-behaved command preserves the invariant. -/
theorem inv_step (s : TablePlanner) (op : Op) (h : Inv s)
    (hg : goodOp s op = true) : Inv (applyOp s op) := by
  cases op with
  | addTable t c r =>
    simp only [goodOp, Bool.and_eq_true, Bool.not_eq_true'] at hg
    exact inv_add_table s t c r hg.1 hg.2 h
  | removeTable t =>
    simp only [goodOp, Bool.not_eq_true'] at hg
    exact inv_remove s t hg h
  | addGuests n nm => exact inv_add_guests s n nm h
  | seat g t =>
    simp only [goodOp, Bool.not_eq_true'] at hg
    exact inv_seat s g t hg h
  | release g => exact inv_mark s g h
  | findTable n g => exact inv_find s n g h
  | optimize => exact inv_optimize s h
  | rename g nm => exact inv_rename s g nm h

theorem inv_reachable (s : TablePlanner) (h : ReachableG s) : Inv s := by
  induction h with
  | init => exact inv_init
  | step s op _ hg ih => exact inv_step s op ih hg

/-! ### Claim C2, amended -/

/-- Claim C2 (amended): in every state reached through well-behaved
commands (addTable only with fresh, separator-free ids; neither seat nor
removeTable aimed at a component of an active combination — release,
optimize, findTableForGroup, addGuests and rename are unrestricted), every
table that is not marked combined satisfies
`occupied = (assignment list non-empty)`.  Combined-marked tables (the
synthesized combination and its components) genuinely violate the
equivalence, as the counterexample shows. -/
theorem C2_amended_invariant (s : TablePlanner) (hs : ReachableG s) :
    ∀ t info, lookupA s.tables t = some info → info.combined = false →
      (info.occupied = true ↔ getAsg s.assignments t ≠ []) :=
  (inv_reachable s hs).occIff

/-- Witness for the amended C2 at a concrete reachable state: a seated base
table is occupied with a non-empty list. -/
theorem C2_amended_invariant_witness :
    getAsg (runOps initPlanner
      [.addTable "A" 2 "R", .addGuests 2 none, .seat 1 "A"]).assignments
      "A" ≠ [] := by
  have h1 : ReachableG (applyOp initPlanner (.addTable "A" 2 "R")) :=
    .step initPlanner (.addTable "A" 2 "R") .init (by decide)
  have h2 : ReachableG (applyOp (applyOp initPlanner (.addTable "A" 2 "R"))
      (.addGuests 2 none)) :=
    .step _ (.addGuests 2 none) h1 (by decide)
  have h3 : ReachableG (applyOp (applyOp (applyOp initPlanner
      (.addTable "A" 2 "R")) (.addGuests 2 none)) (.seat 1 "A")) :=
    .step _ (.seat 1 "A") h2 (by decide)
  exact (C2_amended_invariant (runOps initPlanner
      [.addTable "A" 2 "R", .addGuests 2 none, .seat 1 "A"]) h3
    "A" ⟨2, true, false, "R", none⟩ (by decide) (by decide)).mp (by decide)

/-! ### Claim C7, amended -/

theorem seatCommit_messages (s : TablePlanner) (gid : Nat) (tid : String)
    (g : GroupInfo) : (seatCommit s gid tid g).messages = s.messages := rfl

theorem find_best_messages (s : TablePlanner) (n : Int) (g : Nat) :
    (find_best_table_for_group s n g).1.messages = s.messages := by
  rw [find_best_table_for_group]
  rcases h1 : findSingle s.tables n with _ | tid
  · rcases h2 : searchRooms n (groupEmptyByRoom s.tables) with _ | trip
    · rfl
    · obtain ⟨room, comps, total⟩ := trip
      rfl
  · rfl

/-- A group already seated or removed is skipped: no state change and no
log entry. -/
theorem stepRes_skip (s : TablePlanner) (p : Nat × GroupInfo)
    (h : containsA s.groups p.1 = false) : optimizeStepRes s p = (s, []) := by
  have h2 : ¬ containsA s.groups p.1 = true := by simp [h]
  rw [optimizeStepRes, if_neg h2]

/-- When the search finds no table, the step logs nothing. -/
theorem stepRes_no_table (s : TablePlanner) (p : Nat × GroupInfo)
    (sp : TablePlanner) (isC : Bool) (compso : Option (List String))
    (hg : containsA s.groups p.1 = true)
    (hfind : find_best_table_for_group s p.2.size p.1 =
      (sp, none, isC, compso)) : optimizeStepRes s p = (sp, []) := by
  rw [optimizeStepRes, if_pos hg, hfind]

/-- A falsy (empty-string) table id skips the seating and logs nothing. -/
theorem stepRes_falsy_id (s : TablePlanner) (p : Nat × GroupInfo)
    (sp : TablePlanner) (isC : Bool) (compso : Option (List String))
    (hg : containsA s.groups p.1 = true)
    (hfind : find_best_table_for_group s p.2.size p.1 =
      (sp, some "", isC, compso)) : optimizeStepRes s p = (sp, []) := by
  rw [optimizeStepRes, if_pos hg, hfind]
  rfl

/-- Seating at a single (non-combined) table logs nothing. -/
theorem stepRes_single_table (s : TablePlanner) (p : Nat × GroupInfo)
    (sp : TablePlanner) (tid : String) (compso : Option (List String))
    (hg : containsA s.groups p.1 = true) (htid : tid ≠ "")
    (hfind : find_best_table_for_group s p.2.size p.1 =
      (sp, some tid, false, compso)) :
    optimizeStepRes s p =
      (seatCommit sp p.1 tid { size := p.2.size, name := p.2.name }, []) := by
  rw [optimizeStepRes, if_pos hg, hfind]
  show (if tid = "" then (sp, ([] : List String))
    else (seatCommit sp p.1 tid { size := p.2.size, name := p.2.name },
      ([] : List String))) = _
  rw [if_neg htid]

/-- A combination event logs exactly one combined-tables message. -/
theorem stepRes_combined_event (s : TablePlanner) (p : Nat × GroupInfo)
    (sp : TablePlanner) (tid : String) (compso : Option (List String))
    (hg : containsA s.groups p.1 = true) (htid : tid ≠ "")
    (hfind : find_best_table_for_group s p.2.size p.1 =
      (sp, some tid, true, compso)) :
    (optimizeStepRes s p).2 =
      [combinedMessage (compso.getD [])
        (((lookupA (seatCommit sp p.1 tid
            { size := p.2.size, name := p.2.name }).tables tid).map
          TableInfo.room).getD "") p.2.name] := by
  rw [optimizeStepRes, if_pos hg, hfind]
  show (if tid = "" then (sp, ([] : List String))
    else (let s2 := seatCommit sp p.1 tid { size := p.2.size, name := p.2.name }
          let m := combinedMessage (compso.getD [])
            (((lookupA s2.tables tid).map TableInfo.room).getD "") p.2.name
          (({ s2 with messages := s2.messages ++ [m] } : TablePlanner),
            [m]))).2 = _
  rw [if_neg htid]

/-- The instrumented step computes the same state as the loop body. -/
theorem optimizeStepRes_state (s : TablePlanner) (p : Nat × GroupInfo) :
    (optimizeStepRes s p).1 = optimizeStep s p := by
  rw [optimizeStepRes, optimizeStep]
  by_cases hg : containsA s.groups p.1 = true
  · rw [if_pos hg, if_pos hg]
    rcases hfind : find_best_table_for_group s p.2.size p.1 with
      ⟨sp, tido, isC, compso⟩
    rcases tido with _ | tid
    · rfl
    · show (if tid = "" then (sp, ([] : List String))
        else (let s2 := seatCommit sp p.1 tid
                { size := p.2.size, name := p.2.name }
              if isC then
                (let m := combinedMessage (compso.getD [])
                  (((lookupA s2.tables tid).map TableInfo.room).getD "")
                  p.2.name
                 (({ s2 with messages := s2.messages ++ [m] } : TablePlanner),
                   [m]))
              else (s2, []))).1 =
        (if tid = "" then sp
         else (let s2 := seatCommit sp p.1 tid
                 { size := p.2.size, name := p.2.name }
               if isC then
                 { s2 with messages := s2.messages ++
                     [combinedMessage (compso.getD [])
                       (((lookupA s2.tables tid).map TableInfo.room).getD "")
                       p.2.name] }
               else s2))
      by_cases htid : tid = ""
      · rw [if_pos htid, if_pos htid]
      · rw [if_neg htid, if_neg htid]
        rcases isC with _ | _
        · rfl
        · rfl
  · rw [if_neg hg, if_neg hg]

/-- The step appends exactly the instrumented log to the messages. -/
theorem optimizeStepRes_messages (s : TablePlanner) (p : Nat × GroupInfo) :
    (optimizeStep s p).messages = s.messages ++ (optimizeStepRes s p).2 := by
  rw [optimizeStep, optimizeStepRes]
  by_cases hg : containsA s.groups p.1 = true
  · rw [if_pos hg, if_pos hg]
    rcases hfind : find_best_table_for_group s p.2.size p.1 with
      ⟨sp, tido, isC, compso⟩
    have hmsg : sp.messages = s.messages := by
      have h2 := find_best_messages s p.2.size p.1
      rw [hfind] at h2
      exact h2
    rcases tido with _ | tid
    · show sp.messages = s.messages ++ []
      simp [hmsg]
    · show (if tid = "" then sp
         else (let s2 := seatCommit sp p.1 tid
                 { size := p.2.size, name := p.2.name }
               if isC then
                 { s2 with messages := s2.messages ++
                     [combinedMessage (compso.getD [])
                       (((lookupA s2.tables tid).map TableInfo.room).getD "")
                       p.2.name] }
               else s2)).messages =
        s.messages ++
        (if tid = "" then (sp, ([] : List String))
         else (let s2 := seatCommit sp p.1 tid
                 { size := p.2.size, name := p.2.name }
               if isC then
                 (let m := combinedMessage (compso.getD [])
                   (((lookupA s2.tables tid).map TableInfo.room).getD "")
                   p.2.name
                  (({ s2 with messages := s2.messages ++ [m] } : TablePlanner),
                    [m]))
               else (s2, []))).2
      by_cases htid : tid = ""
      · rw [if_pos htid, if_pos htid]
        show sp.messages = s.messages ++ []
        simp [hmsg]
      · rw [if_neg htid, if_neg htid]
        rcases isC with _ | _
        · show (seatCommit sp p.1 tid
            { size := p.2.size, name := p.2.name }).messages = s.messages ++ []
          simp [seatCommit_messages, hmsg]
        · show (seatCommit sp p.1 tid
            { size := p.2.size, name := p.2.name }).messages ++ _ =
            s.messages ++ _
          rw [seatCommit_messages, hmsg]
          rfl
  · rw [if_neg hg, if_neg hg]
    show s.messages = s.messages ++ []
    rw [List.append_nil]

/-- The instrumented run computes the same final state as the fold. -/
theorem optimizeRun_state (l : List (Nat × GroupInfo)) :
    ∀ s : TablePlanner, (optimizeRun s l).1 = l.foldl optimizeStep s := by
  induction l with
  | nil => intro s; rfl
  | cons p rest ih =>
    intro s
    show (optimizeRun (optimizeStepRes s p).1 rest).1 =
      rest.foldl optimizeStep (optimizeStep s p)
    rw [ih, optimizeStepRes_state]

/-- The fold appends exactly the concatenated per-step logs. -/
theorem optimizeRun_messages (l : List (Nat × GroupInfo)) :
    ∀ s : TablePlanner, (l.foldl optimizeStep s).messages =
      s.messages ++ (optimizeRun s l).2 := by
  induction l with
  | nil =>
    intro s
    show s.messages = s.messages ++ []
    rw [List.append_nil]
  | cons p rest ih =>
    intro s
    show (rest.foldl optimizeStep (optimizeStep s p)).messages =
      s.messages ++
        ((optimizeStepRes s p).2 ++ (optimizeRun (optimizeStepRes s p).1 rest).2)
    rw [ih (optimizeStep s p), optimizeStepRes_messages, List.append_assoc,
      optimizeStepRes_state]

/-- Claim C7 (amended): `optimize_seating` returns no per-group list; its
only output is the session message log.  The run appends exactly the
concatenation of the per-group event logs collected by `optimizeRun`
(first conjunct, with `optimizeStepRes` agreeing with the loop body by the
second), and the event log of one processed group is exactly one
"Combined tables ..." message when the group is seated at a combined
table, and empty in every other case: group already seated or removed, no
table found, a falsy (empty-string) table id, or seating at a single
table. -/
theorem C7_amended_messages :
    (∀ s : TablePlanner, (optimize_seating s).messages =
        s.messages ++ (optimizeRun s (sortGroupsDesc s.groups)).2) ∧
    (∀ (s : TablePlanner) (p : Nat × GroupInfo),
        (optimizeStepRes s p).1 = optimizeStep s p) ∧
    (∀ (s : TablePlanner) (p : Nat × GroupInfo),
        containsA s.groups p.1 = false → (optimizeStepRes s p).2 = []) ∧
    (∀ (s : TablePlanner) (p : Nat × GroupInfo) (sp : TablePlanner)
        (isC : Bool) (compso : Option (List String)),
        containsA s.groups p.1 = true →
        find_best_table_for_group s p.2.size p.1 = (sp, none, isC, compso) →
        (optimizeStepRes s p).2 = []) ∧
    (∀ (s : TablePlanner) (p : Nat × GroupInfo) (sp : TablePlanner)
        (isC : Bool) (compso : Option (List String)),
        containsA s.groups p.1 = true →
        find_best_table_for_group s p.2.size p.1 = (sp, some "", isC, compso) →
        (optimizeStepRes s p).2 = []) ∧
    (∀ (s : TablePlanner) (p : Nat × GroupInfo) (sp : TablePlanner)
        (tid : String) (compso : Option (List String)),
        containsA s.groups p.1 = true → tid ≠ "" →
        find_best_table_for_group s p.2.size p.1 =
          (sp, some tid, false, compso) →
        (optimizeStepRes s p).2 = []) ∧
    (∀ (s : TablePlanner) (p : Nat × GroupInfo) (sp : TablePlanner)
        (tid : String) (compso : Option (List String)),
        containsA s.groups p.1 = true → tid ≠ "" →
        find_best_table_for_group s p.2.size p.1 =
          (sp, some tid, true, compso) →
        (optimizeStepRes s p).2 =
          [combinedMessage (compso.getD [])
            (((lookupA (seatCommit sp p.1 tid
                { size := p.2.size, name := p.2.name }).tables tid).map
              TableInfo.room).getD "") p.2.name]) := by
  refine ⟨?_, ?_, ?_, ?_, ?_, ?_, ?_⟩
  · intro s
    exact optimizeRun_messages (sortGroupsDesc s.groups) s
  · intro s p
    exact optimizeStepRes_state s p
  · intro s p h
    rw [stepRes_skip s p h]
  · intro s p sp isC compso hg hfind
    rw [stepRes_no_table s p sp isC compso hg hfind]
  · intro s p sp isC compso hg hfind
    rw [stepRes_falsy_id s p sp isC compso hg hfind]
  · intro s p sp tid compso hg htid hfind
    rw [stepRes_single_table s p sp tid compso hg htid hfind]
  · intro s p sp tid compso hg htid hfind
    exact stepRes_combined_event s p sp tid compso hg htid hfind

/-- Witness for the amended C7: at the concrete `c7State`, the step that
combines A, B and C for the size-5 group logs exactly the one
combined-tables message. -/
theorem C7_amended_messages_witness :
    (optimizeStepRes c7State (1, { size := 5, name := "G" })).2 =
      [combinedMessage ["A", "B", "C"] "R" "G"] := by
  have h := C7_amended_messages.2.2.2.2.2.2 c7State
    (1, { size := 5, name := "G" })
    (find_best_table_for_group c7State 5 1).1 "A+B+C" (some ["A", "B", "C"])
    (by decide) (by decide) (by decide)
  rw [h]
  decide

end ODIS
